import Mathlib

/-!
Verification development for the PerconaFT cachetable (src/ft/cachetable.cc).

This file gives a shallow, sequential embedding of the cachetable's data
model and operations, translated from the C++ source:

  * `Pair` models `struct ctpair` (the fields the verified claims touch);
    the two non-blocking mutexes are modelled by their externally visible
    `users` counters.
  * `PairTable` models the `pair_list` hash table: a list of bucket chains
    indexed by `fullhash & (table_size - 1)`, plus the clock and pending
    lists (represented by lists of pair identities, i.e. the arena-handle
    view of the intrusive pointer lists), and the `m_n_in_table` counter.
  * The cachetable entry points (`cachetable_put_internal`,
    `toku_cachetable_get_and_pin`, `toku_cachetable_maybe_get_and_pin`,
    `toku_cachetable_unpin_and_remove`, ...) are translated as state
    transformers that additionally emit the list of upcalls (events) they
    perform, so that claims about callback invocations can be stated.

Background threads are sequentialized: an operation that would block on a
condition variable with no other thread able to make progress is modelled
as returning `none`.
-/

/-- PAIR_ATTR from cachetable.h: the 6-tuple of sizes accounted by the
evictor. Sizes are C `long`; we use `Int`. -/
structure PairAttr where
  size : Int
  nonleaf_size : Int
  leaf_size : Int
  rollback_size : Int
  cache_pressure_size : Int
  is_valid : Bool
deriving DecidableEq, Repr

/-- zero_attr from cachetable.cc. -/
def zero_attr : PairAttr :=
  { size := 0, nonleaf_size := 0, leaf_size := 0, rollback_size := 0,
    cache_pressure_size := 0, is_valid := true }

/-- make_pair_attr: an attr with only the size field set (used for clones). -/
def make_pair_attr (s : Int) : PairAttr :=
  { size := s, nonleaf_size := 0, leaf_size := 0, rollback_size := 0,
    cache_pressure_size := 0, is_valid := true }

/-- The fields of `struct ctpair` that the claims touch.  `fileid` stands
for the pair's cachefile (its filenum identity); `value_data` is the opaque
value handle (modelled as a number); `value_users` and `disk_users` are the
`nb_mutex_users` counts of `value_nb_mutex` and `disk_nb_mutex`;
`has_clone_callback` records whether `clone_callback` is non-NULL. -/
structure Pair where
  fileid : Nat
  key : Int
  fullhash : Nat
  value_data : Nat
  disk_data : Option Nat
  cloned_value_data : Option Nat
  cloned_value_size : Int
  attr : PairAttr
  dirty : Bool
  count : Nat
  checkpoint_pending : Bool
  value_users : Nat
  disk_users : Nat
  has_clone_callback : Bool
deriving DecidableEq, Repr

/-- Truncation to a 32-bit unsigned value. -/
def u32 (x : Nat) : Nat := x % 2 ^ 32

/-- Wrapping 32-bit subtraction (C unsigned arithmetic). -/
def sub32 (x y : Nat) : Nat := (x + 2 ^ 32 - u32 y) % 2 ^ 32

/-- rot (cachetable.cc:513): 32-bit rotate left by `k`. -/
def rot (x k : Nat) : Nat := u32 (x <<< k) ||| (u32 x >>> (32 - k))

/-- final (cachetable.cc:516): the Jenkins lookup3 final mix. -/
def final (a0 b0 c0 : Nat) : Nat :=
  let c := u32 c0 ^^^ u32 b0
  let c := sub32 c (rot b0 14)
  let a := u32 a0 ^^^ c
  let a := sub32 a (rot c 11)
  let b := u32 b0 ^^^ a
  let b := sub32 b (rot a 25)
  let c := c ^^^ b
  let c := sub32 c (rot b 16)
  let a := a ^^^ c
  let a := sub32 a (rot c 4)
  let b := b ^^^ a
  let b := sub32 b (rot a 14)
  let c := c ^^^ b
  sub32 c (rot b 24)

/-- toku_cachetable_hash (cachetable.cc:527):
`final(filenum.fileid, key.b >> 32, key.b)`.  Block numbers are
nonnegative, so the `int64 → uint32` conversions are modelled on
`key.toNat`. -/
def toku_cachetable_hash (fileid : Nat) (key : Int) : Nat :=
  final (u32 fileid) (u32 (key.toNat >>> 32)) (u32 key.toNat)

/-- CLOCK_SATURATION from cachetable.cc line 533. -/
def CLOCK_SATURATION : Nat := 15

/-- CLOCK_INITIAL_COUNT from cachetable.cc line 534. -/
def CLOCK_INITIAL_COUNT : Nat := 3

/-- pair_touch (cachetable.cc:537): increment the clock count, saturating
at CLOCK_SATURATION. -/
def pair_touch (p : Pair) : Pair :=
  { p with count := if p.count < CLOCK_SATURATION then p.count + 1 else CLOCK_SATURATION }

/-- pair_init (cachetable.cc:738): initialize a freshly malloc'd pair.
`count` is 0 here; `pair_list::put` (via `add_to_clock`) will overwrite it. -/
def pair_init (fileid : Nat) (key : Int) (value : Nat) (attr : PairAttr)
    (dirty : Bool) (fullhash : Nat) (has_clone_callback : Bool) : Pair :=
  { fileid := fileid, key := key, fullhash := fullhash, value_data := value,
    disk_data := none, cloned_value_data := none, cloned_value_size := 0,
    attr := attr, dirty := dirty, count := 0, checkpoint_pending := false,
    value_users := 0, disk_users := 0, has_clone_callback := has_clone_callback }

/-- Identity of a pair: `(cachefile, key)`, as compared by
`pair_list::find_pair`. -/
def Pair.sameId (p : Pair) (fileid : Nat) (key : Int) : Bool :=
  p.key == key && p.fileid == fileid

/-- The pair_list (cachetable-internal.h / cachetable.cc): the hash table
of bucket chains together with the clock and pending lists.  The intrusive
clock and pending linkage is represented by lists of pair identities
(`(fileid, key)` handles); the bucket chains hold the pair records
themselves.  `m_n_in_table` mirrors the source counter. -/
structure PairTable where
  m_table : List (List Pair)
  m_n_in_table : Nat
  m_clock : List (Nat × Int)
  m_pending : List (Nat × Int)
deriving DecidableEq, Repr

def PairTable.m_table_size (t : PairTable) : Nat := t.m_table.length

/-- The bucket chain with index `i` (the head `m_table[i]`). -/
def PairTable.bucketAt (t : PairTable) (i : Nat) : List Pair := t.m_table.getD i []

/-- All pairs in the hash table (every bucket chain, concatenated). -/
def PairTable.allPairs (t : PairTable) : List Pair := t.m_table.flatten

/-- INITIAL_PAIR_LIST_SIZE (cachetable.cc:3099). -/
def INITIAL_PAIR_LIST_SIZE : Nat := 4

/-- pair_list::init (cachetable.cc:3103). -/
def PairTable.init : PairTable :=
  { m_table := List.replicate INITIAL_PAIR_LIST_SIZE [],
    m_n_in_table := 0, m_clock := [], m_pending := [] }

/-- pair_list::find_pair (cachetable.cc:3245): walk the bucket chain at
`fullhash & (m_table_size - 1)` and return the first pair whose key and
cachefile match. -/
def PairTable.find_pair (t : PairTable) (fileid : Nat) (key : Int)
    (fullhash : Nat) : Option Pair :=
  (t.bucketAt (fullhash &&& (t.m_table_size - 1))).find? (fun p => p.sameId fileid key)

/-- pair_list::rehash (cachetable.cc:3262): redistribute every pair into a
fresh table of `newtable_size` buckets by `fullhash & (newtable_size - 1)`.
The source relinks the chain nodes in place, which reverses segments of the
chains; only the contents of each bucket matter to any observable
behaviour, so the model builds each new bucket by filtering. -/
def PairTable.rehash (t : PairTable) (newtable_size : Nat) : PairTable :=
  { t with m_table :=
      (List.range newtable_size).map (fun j =>
        t.m_table.flatten.filter (fun p => p.fullhash &&& (newtable_size - 1) == j)) }

/-- pair_list::add_to_clock (cachetable.cc:3288): set `count` to
CLOCK_INITIAL_COUNT (unconditionally, for every insertion) and link the
pair into the clock list right before the head, i.e. at the tail. -/
def PairTable.add_to_clock (t : PairTable) (p : Pair) : PairTable × Pair :=
  ({ t with m_clock := t.m_clock ++ [(p.fileid, p.key)] },
   { p with count := CLOCK_INITIAL_COUNT })

/-- pair_list::put (cachetable.cc:3147): requires that the pair is absent;
add to the clock list, link into bucket `fullhash & (m_table_size - 1)`,
bump the count, possibly rehash up.  Returns the table together with the
pair as inserted (the source mutates `p` in place via `add_to_clock`). -/
def PairTable.putMid (t : PairTable) (p : Pair) : PairTable :=
  let t1 := (t.add_to_clock p).1
  let p1 := (t.add_to_clock p).2
  let h := p1.fullhash &&& (t1.m_table_size - 1)
  { t1 with
    m_table := t1.m_table.set h (p1 :: t1.bucketAt h),
    m_n_in_table := t1.m_n_in_table + 1 }

def PairTable.put (t : PairTable) (p : Pair) : PairTable × Pair :=
  let t2 := t.putMid p
  if t2.m_n_in_table > t2.m_table_size then
    (t2.rehash (t2.m_table_size * 2), (t.add_to_clock p).2)
  else
    (t2, (t.add_to_clock p).2)

/-- pair_list::pair_remove (cachetable.cc:3198): unlink from the clock
list, fixing both cursors (cursor fixing is implicit in the handle
representation). -/
def PairTable.pair_remove (t : PairTable) (p : Pair) : PairTable :=
  { t with m_clock := t.m_clock.erase (p.fileid, p.key) }

/-- pair_list::pending_pairs_remove (cachetable.cc:3225): unlink from the
pending list (no-op if the pair is not on it). -/
def PairTable.pending_pairs_remove (t : PairTable) (p : Pair) : PairTable :=
  { t with m_pending := t.m_pending.erase (p.fileid, p.key) }

/-- pair_list::evict (cachetable.cc:3167): remove from clock list, pending
list and hash chain, decrement the count, possibly rehash down. -/
def PairTable.evictMid (t : PairTable) (p : Pair) : PairTable :=
  let t1 := (t.pair_remove p).pending_pairs_remove p
  let t2 := { t1 with m_n_in_table := t1.m_n_in_table - 1 }
  let h := p.fullhash &&& (t2.m_table_size - 1)
  { t2 with m_table := t2.m_table.set h ((t2.bucketAt h).erase p) }

def PairTable.evict (t : PairTable) (p : Pair) : PairTable :=
  let t3 := t.evictMid p
  if 4 * t3.m_n_in_table < t3.m_table_size ∧ t3.m_table_size > 4 then
    t3.rehash (t3.m_table_size / 2)
  else
    t3

/-- Apply `f` to the pair with identity `(fileid, key)` wherever it sits in
the hash table: the model of mutating a PAIR in place through its pointer.
Pairs are unique per identity in well-formed tables, so at most one pair is
affected. -/
def PairTable.modifyPair (t : PairTable) (fileid : Nat) (key : Int)
    (f : Pair → Pair) : PairTable :=
  { t with m_table :=
      t.m_table.map (List.map (fun p => if p.sameId fileid key then f p else p)) }

/-- Well-formedness of the pair_list, maintained by the source's locking
discipline and its `put`-only-if-absent rule:
  * the table size is a power of two (the source starts at 4 and only
    doubles or halves, asserting the invariant in `rehash`);
  * every pair sits in the bucket selected by its own hash;
  * pair identities `(cachefile, key)` are pairwise distinct. -/
structure PairTable.WF (t : PairTable) : Prop where
  sizePow : ∃ k, t.m_table.length = 2 ^ k
  bucketed : ∀ i, ∀ p ∈ t.bucketAt i, p.fullhash &&& (t.m_table_size - 1) = i
  uniq : t.allPairs.Pairwise (fun p q => p.fileid ≠ q.fileid ∨ p.key ≠ q.key)
  hashed : ∀ p ∈ t.allPairs, p.fullhash = toku_cachetable_hash p.fileid p.key

/-! ### Hash-table lemmas -/

/-- The separation relation of `PairTable.WF.uniq`. -/
def pairR (p q : Pair) : Prop := p.fileid ≠ q.fileid ∨ p.key ≠ q.key

/-- A pair-updating function that leaves the identity and hash alone: the
shape of every in-place PAIR mutation in the source (locks, counters,
flags, value and attr updates). -/
def IdPreserving (f : Pair → Pair) : Prop :=
  ∀ q, (f q).fileid = q.fileid ∧ (f q).key = q.key ∧ (f q).fullhash = q.fullhash

/-- The guarded form of the update applied by `PairTable.modifyPair`. -/
def guardUpd (fileid : Nat) (key : Int) (f : Pair → Pair) (p : Pair) : Pair :=
  if p.sameId fileid key then f p else p

/-- A cachefile handle: its filenum identity and its file descriptor. -/
structure Cachefile where
  fileid : Nat
  fd : Int
deriving DecidableEq, Repr

/-- One invocation of the upper layer's flush_callback, with the argument
values the cachetable passes (cachetable.cc:566 and cachetable.cc:639).
`cachefile = none` models passing NULL. -/
structure FlushCall where
  cachefile : Option Nat
  fd : Int
  key : Int
  value : Nat
  write_me : Bool
  keep_me : Bool
  for_checkpoint : Bool
  is_clone : Bool
deriving DecidableEq, Repr

/-- The upcalls into the index layer that the modelled operations perform,
in order. -/
inductive CTEvent where
  | put_cb (value : Nat)
  | fetch_cb (fileid : Nat) (key : Int)
  | pf_cb (fileid : Nat) (key : Int)
  | flush_cb (fc : FlushCall)
  | remove_key_cb (key : Int) (for_checkpoint : Bool)
  | clone_cb (fileid : Nat) (key : Int)
  | pe_cb (fileid : Nat) (key : Int)
  | cleaner_cb (fileid : Nat) (key : Int)
deriving DecidableEq, Repr

/-- cachetable_free_pair (cachetable.cc:550): the single flush_callback
invocation performed when a pair is finally removed and freed.  Because the
pair was already removed from the cachetable, NULL and -1 are passed
instead of `p->cachefile` and `p->cachefile->fd` (see #5171), `write_me`
and `keep_me` are false, and the `for_checkpoint` argument is passed as
`true`. -/
def cachetable_free_pair (p : Pair) : FlushCall :=
  { cachefile := none, fd := -1, key := p.key, value := p.value_data,
    write_me := false, keep_me := false, for_checkpoint := true,
    is_clone := false }

/-- cachetable_only_write_locked_data (cachetable.cc:611): the flush
invocation that actually writes a (possibly cloned) pair, passing the
pair's cachefile and its fd. -/
def cachetable_only_write_locked_data (cf : Cachefile) (p : Pair)
    (for_checkpoint is_clone : Bool) : FlushCall :=
  { cachefile := some cf.fileid, fd := cf.fd, key := p.key,
    value := if is_clone then p.cloned_value_data.getD 0 else p.value_data,
    write_me := true, keep_me := if is_clone then false else true,
    for_checkpoint := for_checkpoint, is_clone := is_clone }

/-- The cachetable with the evictor's size accounting (the fields of
`struct cachetable` and `class evictor` that the claims touch), plus the
global miss/put counters. -/
structure CacheState where
  list : PairTable
  m_size_current : Int
  m_size_evicting : Int
  m_size_nonleaf : Int
  m_size_leaf : Int
  m_size_rollback : Int
  m_size_cachepressure : Int
  m_size_reserved : Int
  m_low_size_watermark : Int
  m_low_size_hysteresis : Int
  m_high_size_hysteresis : Int
  m_high_size_watermark : Int
  cachetable_puts : Nat
  cachetable_miss : Nat
deriving DecidableEq, Repr

/-- evictor::add_to_size_current (cachetable.cc:3544). -/
def CacheState.add_to_size_current (s : CacheState) (size : Int) : CacheState :=
  { s with m_size_current := s.m_size_current + size }

/-- evictor::remove_from_size_current (cachetable.cc:3552). -/
def CacheState.remove_from_size_current (s : CacheState) (size : Int) : CacheState :=
  { s with m_size_current := s.m_size_current - size }

/-- evictor::add_pair_attr (cachetable.cc:3508). -/
def CacheState.add_pair_attr (s : CacheState) (attr : PairAttr) : CacheState :=
  let s1 := s.add_to_size_current attr.size
  { s1 with
    m_size_nonleaf := s.m_size_nonleaf + attr.nonleaf_size,
    m_size_leaf := s.m_size_leaf + attr.leaf_size,
    m_size_rollback := s.m_size_rollback + attr.rollback_size,
    m_size_cachepressure := s.m_size_cachepressure + attr.cache_pressure_size }

/-- evictor::remove_pair_attr (cachetable.cc:3521). -/
def CacheState.remove_pair_attr (s : CacheState) (attr : PairAttr) : CacheState :=
  let s1 := s.remove_from_size_current attr.size
  { s1 with
    m_size_nonleaf := s.m_size_nonleaf - attr.nonleaf_size,
    m_size_leaf := s.m_size_leaf - attr.leaf_size,
    m_size_rollback := s.m_size_rollback - attr.rollback_size,
    m_size_cachepressure := s.m_size_cachepressure - attr.cache_pressure_size }

/-- evictor::change_pair_attr (cachetable.cc:3535). -/
def CacheState.change_pair_attr (s : CacheState) (old_attr new_attr : PairAttr) :
    CacheState :=
  (s.add_pair_attr new_attr).remove_pair_attr old_attr

/-- evictor::should_client_thread_sleep (cachetable.cc:3969). -/
def CacheState.should_client_thread_sleep (s : CacheState) : Prop :=
  s.m_size_current > s.m_high_size_watermark

instance (s : CacheState) : Decidable s.should_client_thread_sleep :=
  inferInstanceAs (Decidable (_ > _))

/-- evictor::should_sleeping_clients_wakeup (cachetable.cc:3981). -/
def CacheState.should_sleeping_clients_wakeup (s : CacheState) : Prop :=
  s.m_size_current ≤ s.m_high_size_hysteresis

/-- evictor::should_client_wake_eviction_thread (cachetable.cc:3997),
with `m_ev_thread_is_running` sequentialized to false. -/
def CacheState.should_client_wake_eviction_thread (s : CacheState) : Prop :=
  s.m_size_current - s.m_size_evicting > s.m_low_size_hysteresis

/-- evictor::eviction_needed (cachetable.cc:4008). -/
def CacheState.eviction_needed (s : CacheState) : Prop :=
  s.m_size_current - s.m_size_evicting > s.m_low_size_watermark

/-- unreservable_memory (cachetable.cc:193). -/
def unreservable_memory (size : Int) : Int := size / 4

/-- evictor::init (cachetable.cc:3439), restricted to the watermark and
size fields: `low = limit`, `low hysteresis = 11·limit/10`,
`high hysteresis = 5·limit/4`, `high = 3·limit/2` (integer division). -/
def evictor_init (size_limit : Int) (s : CacheState) : CacheState :=
  { s with
    m_low_size_watermark := size_limit,
    m_low_size_hysteresis := (11 * size_limit) / 10,
    m_high_size_hysteresis := (5 * size_limit) / 4,
    m_high_size_watermark := (3 * size_limit) / 2,
    m_size_reserved := unreservable_memory size_limit,
    m_size_nonleaf := 0, m_size_current := 0, m_size_evicting := 0,
    m_size_leaf := 0, m_size_rollback := 0, m_size_cachepressure := 0 }

/-- toku_create_cachetable (cachetable.cc:195): a zero size limit is
replaced by the default of 128 MiB, then the evictor is initialized. -/
def toku_create_cachetable (size_limit : Int) : CacheState :=
  let size_limit := if size_limit = 0 then 128 * 1024 * 1024 else size_limit
  evictor_init size_limit
    { list := PairTable.init, m_size_current := 0, m_size_evicting := 0,
      m_size_nonleaf := 0, m_size_leaf := 0, m_size_rollback := 0,
      m_size_cachepressure := 0, m_size_reserved := 0,
      m_low_size_watermark := 0, m_low_size_hysteresis := 0,
      m_high_size_hysteresis := 0, m_high_size_watermark := 0,
      cachetable_puts := 0, cachetable_miss := 0 }

/-- Acquire `value_nb_mutex` of the pair `(fileid, key)`: bump its users
count (the externally visible effect of nb_mutex_lock). -/
def CacheState.lockValue (s : CacheState) (fileid : Nat) (key : Int) : CacheState :=
  { s with list :=
      s.list.modifyPair fileid key (fun q => { q with value_users := q.value_users + 1 }) }

/-- Release `value_nb_mutex` of the pair `(fileid, key)`. -/
def CacheState.unlockValue (s : CacheState) (fileid : Nat) (key : Int) : CacheState :=
  { s with list :=
      s.list.modifyPair fileid key (fun q => { q with value_users := q.value_users - 1 }) }

/-- cachetable_insert_at (cachetable.cc:790): pair_init followed by
pair_list::put and evictor::add_pair_attr.  Returns the inserted pair (as
mutated by `add_to_clock`). -/
def cachetable_insert_at (s : CacheState) (cf : Cachefile) (key : Int)
    (value : Nat) (fullhash : Nat) (attr : PairAttr)
    (has_clone_callback : Bool) (dirty : Bool) : CacheState × Pair :=
  let p := pair_init cf.fileid key value attr dirty fullhash has_clone_callback
  let s1 := { s with list := (s.list.put p).1 }
  (s1.add_pair_attr attr, (s.list.put p).2)

/-- cachetable_put_internal (cachetable.cc:821): under the list write
lock, return -1 if the pair already exists (no insertion, no lock, no
callback); otherwise bump the puts counter, insert a DIRTY pair, take its
value_nb_mutex and invoke the put callback exactly once. -/
def cachetable_put_internal (s : CacheState) (cf : Cachefile) (key : Int)
    (fullhash : Nat) (value : Nat) (attr : PairAttr)
    (has_clone_callback : Bool) : Int × CacheState × List CTEvent :=
  match s.list.find_pair cf.fileid key fullhash with
  | some _ => (-1, s, [])
  | none =>
    let s1 := { s with cachetable_puts := s.cachetable_puts + 1 }
    let s2 := (cachetable_insert_at s1 cf key value fullhash attr
      has_clone_callback true).1
    let s3 := s2.lockValue cf.fileid key
    (0, s3, [CTEvent.put_cb value])

/-- toku_cachetable_put (cachetable.cc:1153): flow-control wait and
eviction-thread signalling change no cachetable state in the sequential
model; then cachetable_put_internal under the list write lock. -/
def toku_cachetable_put (s : CacheState) (cf : Cachefile) (key : Int)
    (fullhash : Nat) (value : Nat) (attr : PairAttr)
    (has_clone_callback : Bool) : Int × CacheState × List CTEvent :=
  cachetable_put_internal s cf key fullhash value attr has_clone_callback

/-- toku_cachetable_maybe_get_and_pin (cachetable.cc:1732): succeed (0,
pair pinned, value returned) only if the pair is present, dirty, has no
users of its value_nb_mutex, and is not checkpoint-pending; otherwise
return -1 with no lock held.  The checkpoint_pending bit is read but not
cleared. -/
def toku_cachetable_maybe_get_and_pin (s : CacheState) (cf : Cachefile)
    (key : Int) (fullhash : Nat) : Int × Option Nat × CacheState :=
  match s.list.find_pair cf.fileid key fullhash with
  | none => (-1, none, s)
  | some p =>
    if p.dirty ∧ p.value_users = 0 then
      let s1 := s.lockValue cf.fileid key
      if p.checkpoint_pending then
        (-1, none, s1.unlockValue cf.fileid key)
      else
        (0, some p.value_data, s1)
    else
      (-1, none, s)

/-- toku_cachetable_maybe_get_and_pin_clean (cachetable.cc:1774): same as
the non-clean variant except that the pair's dirtiness is not required;
the checkpoint-pending test is still performed. -/
def toku_cachetable_maybe_get_and_pin_clean (s : CacheState) (cf : Cachefile)
    (key : Int) (fullhash : Nat) : Int × Option Nat × CacheState :=
  match s.list.find_pair cf.fileid key fullhash with
  | none => (-1, none, s)
  | some p =>
    if p.value_users = 0 then
      let s1 := s.lockValue cf.fileid key
      if p.checkpoint_pending then
        (-1, none, s1.unlockValue cf.fileid key)
      else
        (0, some p.value_data, s1)
    else
      (-1, none, s)

/-- The net effect on a single pair of write_locked_pair_for_checkpoint
(cachetable.cc:944), together with the emitted upcalls.  If the pair is
dirty and was checkpoint-pending: a cloneable pair is cloned and the clone
written by a background checkpoint job (which completes before anything
observes it in the sequential model: the clone slot is filled and emptied
again, the flush is called with is_clone=true); a non-cloneable pair is
written synchronously under its value lock.  Either way the pair ends
clean.  Otherwise nothing happens. -/
def write_locked_pair_for_checkpoint_p (cf : Cachefile) (p : Pair)
    (checkpoint_pending : Bool) : Pair × List CTEvent :=
  if p.dirty ∧ checkpoint_pending then
    if p.has_clone_callback then
      ({ p with dirty := false },
       [CTEvent.clone_cb p.fileid p.key,
        CTEvent.flush_cb (cachetable_only_write_locked_data cf
          { p with cloned_value_data := some p.value_data } true true)])
    else
      ({ p with dirty := false },
       [CTEvent.flush_cb (cachetable_only_write_locked_data cf p true false)])
  else
    (p, [])

/-- Outcome of pinning a found pair: the new state, whether the caller
must retry, and the events emitted. -/
structure PinOutcome where
  state : CacheState
  value : Nat
  events : List CTEvent
deriving Repr

/-- try_pin_pair (cachetable.cc:1402), sequentialized: block (`none`) if
the pair's value_nb_mutex is held; otherwise lock it and touch the clock
count; under may_modify_value, read-and-clear the checkpoint_pending bit
and write the pair for checkpoint if it was set; then consult the
partial-fetch-required callback, and either return the value directly or
(after asserting the pair is clean) run the partial fetch.  The
cache-pressure retry path blocks forever sequentially and is `none`. -/
def try_pin_pair (s : CacheState) (cf : Cachefile) (key : Int) (p : Pair)
    (may_modify_value : Bool) (pf_req : Nat → Bool) (pf_attr : PairAttr) :
    Option PinOutcome :=
  if p.value_users > 0 then none
  else
    let sl := s.lockValue cf.fileid key
    let s1 := { sl with list := sl.list.modifyPair cf.fileid key pair_touch }
    let pending := p.checkpoint_pending
    let clearPending := fun q : Pair => { q with checkpoint_pending := false }
    let s2 := if may_modify_value then
        { s1 with list := s1.list.modifyPair cf.fileid key clearPending }
      else s1
    let wr := write_locked_pair_for_checkpoint_p cf p pending
    let putDirty := fun q : Pair => { q with dirty := (wr.1).dirty }
    let s3 := if may_modify_value then
        { s2 with list := s2.list.modifyPair cf.fileid key putDirty }
      else s2
    let evs := if may_modify_value then wr.2 else []
    if ¬ pf_req p.value_data then
      some { state := s3, value := p.value_data, events := evs }
    else if s3.should_client_thread_sleep then none
    else if p.dirty then none
    else
      let s4 := s3.change_pair_attr p.attr pf_attr
      let putAttr := fun q : Pair => { q with attr := pf_attr }
      let s5 := { s4 with list := s4.list.modifyPair cf.fileid key putAttr }
      some { state := s5, value := p.value_data,
             events := evs ++ [CTEvent.pf_cb cf.fileid key] }

/-- The outputs of one fetch_callback invocation. -/
structure FetchResult where
  value : Nat
  dirty : Bool
  attr : PairAttr
deriving DecidableEq, Repr

/-- cachetable_fetch_pair (cachetable.cc:1296) as a state transformer on
the pair `(cf, key)`: run the fetch callback, store its outputs in the
pair (`dirty` is only ever turned on), account the attr. -/
def cachetable_fetch_pair (s : CacheState) (cf : Cachefile) (key : Int)
    (fetch : FetchResult) (keep_pair_locked : Bool) : CacheState × List CTEvent :=
  let s1 := { s with list := s.list.modifyPair cf.fileid key (fun q =>
    { q with value_data := fetch.value, disk_data := some fetch.value,
             attr := fetch.attr,
             dirty := q.dirty || fetch.dirty }) }
  let s2 := s1.add_pair_attr fetch.attr
  let s3 := if keep_pair_locked then s2 else s2.unlockValue cf.fileid key
  (s3, [CTEvent.fetch_cb cf.fileid key])

/-- toku_cachetable_get_and_pin (cachetable.cc:1254 via the batched
no-dependent-pairs path, cachetable.cc:1495): hit path pins via
try_pin_pair; miss path blocks under cache pressure, otherwise inserts a
blank CLEAN pair pinned, fetches it (bumping the miss counter) and
returns the fetched value. -/
def toku_cachetable_get_and_pin (s : CacheState) (cf : Cachefile) (key : Int)
    (fullhash : Nat) (fetch : FetchResult) (pf_req : Nat → Bool)
    (pf_attr : PairAttr) (may_modify_value : Bool)
    (has_clone_callback : Bool) : Option PinOutcome :=
  match s.list.find_pair cf.fileid key fullhash with
  | some p => try_pin_pair s cf key p may_modify_value pf_req pf_attr
  | none =>
    if s.should_client_thread_sleep then none
    else
      let s1 := (cachetable_insert_at s cf key 0 fullhash zero_attr
        has_clone_callback false).1
      let s2 := s1.lockValue cf.fileid key
      let fr := cachetable_fetch_pair s2 cf key fetch true
      let s3 := { fr.1 with cachetable_miss := fr.1.cachetable_miss + 1 }
      some { state := s3, value := fetch.value, events := fr.2 }

/-- cachetable_unpin_internal (cachetable.cc:1820): assert the value lock
is held; possibly set the dirty bit; if the new attr is valid install it
and adjust the accounting; release the value lock. -/
def cachetable_unpin_internal (s : CacheState) (cf : Cachefile) (key : Int)
    (fullhash : Nat) (dirty : Bool) (attr : PairAttr) : Option CacheState :=
  match s.list.find_pair cf.fileid key fullhash with
  | none => none
  | some p =>
    if p.value_users = 0 then none
    else
      let s1 := { s with list := s.list.modifyPair cf.fileid key (fun q =>
        { q with dirty := q.dirty || dirty,
                 attr := if attr.is_valid then attr else q.attr,
                 value_users := q.value_users - 1 }) }
      some (if attr.is_valid then s1.change_pair_attr p.attr attr else s1)

/-- toku_cachetable_unpin (cachetable.cc:1867). -/
def toku_cachetable_unpin (s : CacheState) (cf : Cachefile) (key : Int)
    (fullhash : Nat) (dirty : Bool) (attr : PairAttr) : Option CacheState :=
  cachetable_unpin_internal s cf key fullhash dirty attr

/-- The composite in-place mutation that toku_cachetable_unpin_and_remove
(cachetable.cc:2470) applies to the pair before removing it: clear the
dirty bit (twice in the source), clear checkpoint_pending, zero
cache_pressure_size, and release the value lock (the disk lock is taken
and released again). -/
def unpin_remove_upd (q : Pair) : Pair :=
  { q with dirty := false, checkpoint_pending := false,
           attr := { q.attr with cache_pressure_size := 0 },
           value_users := q.value_users - 1 }

/-- toku_cachetable_unpin_and_remove (cachetable.cc:2470): requires the
pair pinned (value_users > 0) with no background clone in flight
(disk_users = 0); snapshots checkpoint_pending for the remove-key
callback, wipes the pair's flags, invokes the remove-key callback, removes
the pair from every list (pair_list::evict) and the accounting, and frees
it, which invokes the flush callback once with NULL, -1, write_me and
keep_me false, and for_checkpoint true. -/
def toku_cachetable_unpin_and_remove (s : CacheState) (cf : Cachefile)
    (key : Int) (fullhash : Nat) (remove_key_present : Bool) :
    Option (CacheState × List CTEvent) :=
  match s.list.find_pair cf.fileid key fullhash with
  | none => none
  | some p =>
    if p.value_users = 0 ∨ p.disk_users > 0 then none
    else
      let for_checkpoint := p.checkpoint_pending
      let p2 := unpin_remove_upd p
      let s1 := { s with list := s.list.modifyPair cf.fileid key unpin_remove_upd }
      let evs1 := if remove_key_present then
          [CTEvent.remove_key_cb key for_checkpoint] else []
      let s2 := { s1 with list := s1.list.evict p2 }
      let s3 := s2.remove_pair_attr p2.attr
      some (s3, evs1 ++ [CTEvent.flush_cb (cachetable_free_pair p2)])

/-! ### Evictor: run_eviction_on_pair -/

/-- Outputs of the partial-eviction estimator callback. -/
structure PeEst where
  bytes_freed_estimate : Int
  cost_is_cheap : Bool
deriving DecidableEq, Repr

/-- evictor::do_partial_eviction (cachetable.cc:3799): run the pe
callback, install its new attr, fix the accounting, unpin. -/
def evictor_do_partial_eviction (s : CacheState) (cf : Cachefile) (key : Int)
    (p : Pair) (pe_attr : PairAttr) : CacheState × List CTEvent :=
  let s1 := s.change_pair_attr p.attr pe_attr
  let putAttr := fun q : Pair => { q with attr := pe_attr }
  let s2 := { s1 with list := s1.list.modifyPair cf.fileid key putAttr }
  (s2.unlockValue cf.fileid key, [CTEvent.pe_cb cf.fileid key])

/-- evictor::evict_pair (cachetable.cc:3861): write the pair if dirty,
then remove it from every index and free it (flush with write_me=false,
keep_me=false).  `p` is the pair as currently in the table. -/
def evictor_evict_pair (s : CacheState) (cf : Cachefile) (p : Pair)
    (for_checkpoint : Bool) : CacheState × List CTEvent :=
  let wrEvents := if p.dirty then
      [CTEvent.flush_cb (cachetable_only_write_locked_data cf p for_checkpoint false)]
    else []
  let p1 := { p with dirty := false, value_users := 0, disk_users := 0 }
  let s1 := { s with list := s.list.modifyPair cf.fileid p.key (fun _ => p1) }
  let s2 := { s1 with list := s1.list.evict p1 }
  let s3 := s2.remove_pair_attr p1.attr
  (s3, wrEvents ++ [CTEvent.flush_cb (cachetable_free_pair p1)])

/-- evictor::run_eviction_on_pair (cachetable.cc:3714): skip if the
background-job manager rejects (file closing) or either pair lock has
users; if `count > 0` decrement it and run partial eviction according to
the estimator; if `count = 0` run try_evict_pair (inline for a clean pair,
via the evictor worker otherwise, which first snapshots and clears the
pending bit).  Returns the state, whether the pair was processed, and the
events. -/
def evictor_run_eviction_on_pair (s : CacheState) (cf : Cachefile) (p : Pair)
    (bjm_accepts : Bool) (pe : PeEst) (pe_attr : PairAttr) :
    CacheState × Bool × List CTEvent :=
  if ¬ bjm_accepts then (s, false, [])
  else if p.value_users > 0 ∨ p.disk_users > 0 then (s, false, [])
  else if p.count > 0 then
    let decTouch := fun q : Pair => { q with count := q.count - 1 }
    let s1 := { s with list := s.list.modifyPair cf.fileid p.key decTouch }
    let s2 := s1.lockValue cf.fileid p.key
    if pe.cost_is_cheap then
      let r := evictor_do_partial_eviction s2 cf p.key
        { p with count := p.count - 1 } pe_attr
      (r.1, true, r.2)
    else if pe.bytes_freed_estimate > 0 then
      let s3 := { s2 with m_size_evicting := s2.m_size_evicting + pe.bytes_freed_estimate }
      let r := evictor_do_partial_eviction s3 cf p.key
        { p with count := p.count - 1 } pe_attr
      let s4 := { r.1 with m_size_evicting := r.1.m_size_evicting - pe.bytes_freed_estimate }
      (s4, true, r.2)
    else
      (s2.unlockValue cf.fileid p.key, true, [])
  else
    if ¬ p.dirty ∧ p.disk_users = 0 then
      let r := evictor_evict_pair s cf p false
      (r.1, true, r.2)
    else
      let for_checkpoint := p.checkpoint_pending
      let clearPend := fun q : Pair => { q with checkpoint_pending := false }
      let s1 := { s with list := s.list.modifyPair cf.fileid p.key clearPend }
      let r := evictor_evict_pair s1 cf { p with checkpoint_pending := false }
        for_checkpoint
      (r.1, true, r.2)

/-! ### Cleaner -/

/-- cleaner_thread_rate_pair (cachetable.cc:2901). -/
def cleaner_thread_rate_pair (p : Pair) : Int := p.attr.cache_pressure_size

/-- CLEANER_N_TO_CHECK (cachetable.cc:2907). -/
def CLEANER_N_TO_CHECK : Nat := 8

/-- The candidate-selection loop of cleaner::run_cleaner
(cachetable.cc:2999): walk the clock list from the cleaner head; skip
pairs whose value_nb_mutex has users (they do not count toward n_seen);
for an examined pair, take it as the new best exactly when its rating
strictly exceeds the best score so far (so ties keep the first seen, and a
rating of 0 can never be selected since the initial best score is 0);
stop after the full circle or once 8 pairs have been examined. -/
def cleaner_select : List Pair → Nat → Int → Option Pair → Option Pair
  | [], _, _, best => best
  | p :: rest, n_seen, best_score, best =>
    if p.value_users > 0 then
      cleaner_select rest n_seen best_score best
    else
      let score := cleaner_thread_rate_pair p
      let best' := if score > best_score then some p else best
      let best_score' := if score > best_score then score else best_score
      if n_seen + 1 < CLEANER_N_TO_CHECK then
        cleaner_select rest (n_seen + 1) best_score' best'
      else
        best'

/-- One iteration of cleaner::run_cleaner (cachetable.cc:2974) after the
selection loop: if no candidate was found, stop the run (`true` in the
last component); if the candidate's cachefile is closing
(bjm_add_background_job fails), this iteration is a no-op; otherwise pin
the candidate, clear its pending bit, write it for checkpoint if the bit
was set, and invoke the cleaner callback exactly once if its rating is
still positive. -/
def run_cleaner_probe (clock : List Pair) (closing : Nat → Bool)
    (cfOf : Nat → Cachefile) : List Pair × List CTEvent × Bool :=
  match cleaner_select clock 0 0 none with
  | none => (clock, [], true)
  | some best =>
    if closing best.fileid then (clock, [], false)
    else
      let pending := best.checkpoint_pending
      let best1 := { best with checkpoint_pending := false }
      let wr := write_locked_pair_for_checkpoint_p (cfOf best.fileid) best1 pending
      let best2 := wr.1
      let evs := if pending then wr.2 else []
      let clock1 := clock.map (guardUpd best.fileid best.key (fun _ => best2))
      if cleaner_thread_rate_pair best2 > 0 then
        (clock1, evs ++ [CTEvent.cleaner_cb best.fileid best.key], false)
      else
        (clock1, evs, false)

/-- cleaner::run_cleaner (cachetable.cc:2974): `num_iterations` probes;
a probe that finds nothing (or an empty clock list) stops the run. -/
def run_cleaner : Nat → List Pair → (Nat → Bool) → (Nat → Cachefile) →
    List Pair × List CTEvent
  | 0, clock, _, _ => (clock, [])
  | n + 1, clock, closing, cfOf =>
    if clock.isEmpty then (clock, [])
    else
      let r := run_cleaner_probe clock closing cfOf
      if r.2.2 then (r.1, r.2.1)
      else
        let rest := run_cleaner n r.1 closing cfOf
        (rest.1, r.2.1 ++ rest.2)

/-! ### Checkpointer: the pending-bit machinery and the end-checkpoint
    ordering -/

/-- The per-pair state the pending machinery cares about. -/
structure PendPair where
  id : Nat
  checkpoint_pending : Bool
deriving DecidableEq, Repr

/-- Pairs plus the pending list (ids in list order). -/
structure PendState where
  pairs : List PendPair
  pending : List Nat
deriving DecidableEq, Repr

/-- The operations that touch the checkpoint_pending bit or the pending
list, as they appear in the source:
  * `turn_on_pending_bits` — checkpointer::turn_on_pending_bits
    (cachetable.cc:4208): set every pair's bit and push it onto the
    pending list;
  * `client_clear id` — get_checkpoint_pending (cachetable.cc:1339) and
    the identical inline sequences in try_pin_pair,
    toku_cachetable_put_with_dep_pairs and cleaner::run_cleaner: clear the
    bit under the pending-cheap lock, leaving the pending list alone;
  * `checkpointer_pop` — checkpointer::checkpoint_pending_pairs
    (cachetable.cc:4279): unlink the head of the pending list, then
    write_pair_for_checkpoint_thread clears its bit;
  * `evict id` — pair_list::evict (cachetable.cc:3167) on a pair whose
    bit was already cleared by the caller: remove the pair and unlink it
    from the pending list. -/
inductive PendOp where
  | turn_on_pending_bits
  | client_clear (id : Nat)
  | checkpointer_pop
  | evict (id : Nat)
deriving DecidableEq, Repr

def pendStep (s : PendState) : PendOp → PendState
  | .turn_on_pending_bits =>
    { pairs := s.pairs.map (fun p => { p with checkpoint_pending := true }),
      pending := s.pairs.foldl (fun acc p => p.id :: acc) s.pending }
  | .client_clear id =>
    { s with pairs := s.pairs.map (fun p =>
        if p.id = id then { p with checkpoint_pending := false } else p) }
  | .checkpointer_pop =>
    match s.pending with
    | [] => s
    | id :: rest =>
      { pairs := s.pairs.map (fun p =>
          if p.id = id then { p with checkpoint_pending := false } else p),
        pending := rest }
  | .evict id =>
    { pairs := s.pairs.filter (fun p => p.id ≠ id),
      pending := s.pending.erase id }

/-- The direction of the pending invariant that the code does maintain:
a set bit implies membership in the pending list. -/
def PendInv (s : PendState) : Prop :=
  ∀ p ∈ s.pairs, p.checkpoint_pending = true → p.id ∈ s.pending

/-! The end-checkpoint ordering model (claim C1). -/

/-- The per-pair state relevant to one checkpoint cycle. -/
structure CkPair where
  id : Nat
  dirty : Bool
  checkpoint_pending : Bool
  has_clone_callback : Bool
  cf_for_checkpoint : Bool
deriving DecidableEq, Repr

/-- Events of a checkpoint cycle, in program order. -/
inductive CkEvent where
  | wrote_sync (id : Nat)
  | cloned (id : Nat)
  | wrote_clone (id : Nat)
  | checkpoint_userdata_done
  | logged_end_checkpoint
  | end_checkpoint_userdata_done
deriving DecidableEq, Repr

/-- write_pair_for_checkpoint_thread (cachetable.cc:974), events only: a
dirty, still-pending pair is cloned and its clone written on this same
thread (cachetable.cc:997-1012), or written synchronously under its value
lock; otherwise the pending bit is merely cleared. -/
def write_pair_for_checkpoint_thread_events (p : CkPair) : List CkEvent :=
  if p.dirty ∧ p.checkpoint_pending then
    if p.has_clone_callback then
      [CkEvent.cloned p.id, CkEvent.wrote_clone p.id]
    else
      [CkEvent.wrote_sync p.id]
  else
    []

/-- checkpointer::checkpoint_pending_pairs (cachetable.cc:4279), events:
pop the pending list one pair at a time and run
write_pair_for_checkpoint_thread on each; afterwards the pending list is
empty. -/
def checkpoint_pending_pairs_events : List CkPair → List CkEvent
  | [] => []
  | p :: rest =>
    write_pair_for_checkpoint_thread_events p ++ checkpoint_pending_pairs_events rest

/-- checkpointer::end_checkpoint (cachetable.cc:4245), events: drain the
pending pairs, wait for all outstanding client-enqueued clone-writer jobs
(bjm_wait_for_jobs_to_finish on m_checkpoint_clones_bjm, whose completion
writes each clone), write the per-file userdata, log END_CHECKPOINT, then
run the end-checkpoint userdata. -/
def end_checkpoint_events (pending : List CkPair)
    (outstanding_clone_jobs : List Nat) : List CkEvent :=
  checkpoint_pending_pairs_events pending ++
    outstanding_clone_jobs.map CkEvent.wrote_clone ++
    [CkEvent.checkpoint_userdata_done] ++
    [CkEvent.logged_end_checkpoint] ++
    [CkEvent.end_checkpoint_userdata_done]

/-- checkpointer::turn_on_pending_bits (cachetable.cc:4208): every pair of
a participating cachefile gets its pending bit set and is put on the
pending list (the source pushes at the head; list order is irrelevant to
the drain). -/
def turn_on_pending_bits_ck (pairs : List CkPair) : List CkPair :=
  (pairs.filter (fun p => p.cf_for_checkpoint)).map
    (fun p => { p with checkpoint_pending := true })

/-- One whole checkpoint cycle from the moment begin_checkpoint marked the
pending pairs: the pending list is exactly the marked pairs, and
`outstanding_clone_jobs` are the clone writers enqueued by clients that
hit pending pairs between begin and end. -/
def checkpoint_cycle_events (pairs : List CkPair)
    (outstanding_clone_jobs : List Nat) : List CkEvent :=
  end_checkpoint_events (turn_on_pending_bits_ck pairs) outstanding_clone_jobs

/-! ### Auxiliary facts for witnesses -/

/-- Recognizer for the value-releasing flush call shape (write_me and
keep_me both false). -/
def isReleaseFlush : CTEvent → Bool
  | CTEvent.flush_cb fc => !fc.write_me && !fc.keep_me
  | _ => false

/-- The concrete pinned pair used by the C10 witness. -/
def exRemPair : Pair :=
  { pair_init 1 5 42 zero_attr true 0 false with value_users := 1 }

/-- A concrete cachetable holding `exRemPair`, pinned. -/
def exRemState : CacheState :=
  { toku_create_cachetable 16 with
    list := { m_table := [[exRemPair], [], [], []], m_n_in_table := 1,
              m_clock := [(1, 5)], m_pending := [] } }

/-- A present, uncontended pair that is checkpoint-pending. -/
def c4exPair : Pair :=
  { pair_init 1 5 42 zero_attr true 0 false with
    count := 3, checkpoint_pending := true }

/-- A cachetable holding `c4exPair`. -/
def c4exState : CacheState :=
  { toku_create_cachetable 16 with
    list := { m_table := [[c4exPair], [], [], []], m_n_in_table := 1,
              m_clock := [(1, 5)], m_pending := [(1, 5)] } }

/-- A present, uncontended, dirty, non-pending pair. -/
def c4okPair : Pair :=
  { pair_init 1 5 42 zero_attr true 0 false with count := 3 }

/-- A cachetable holding `c4okPair`. -/
def c4okState : CacheState :=
  { toku_create_cachetable 16 with
    list := { m_table := [[c4okPair], [], [], []], m_n_in_table := 1,
              m_clock := [(1, 5)], m_pending := [] } }

def isCleanerCb : CTEvent → Bool
  | CTEvent.cleaner_cb _ _ => true
  | _ => false

/-- The best-so-far fold underlying the cleaner's selection loop, with the
n_seen bookkeeping stripped (the loop examines a prefix; see
`cleaner_select_eq_foldBest`). -/
def foldBest : List Pair → Int → Option Pair → Option Pair
  | [], _, best => best
  | p :: rest, best_score, best =>
    if cleaner_thread_rate_pair p > best_score then
      foldBest rest (cleaner_thread_rate_pair p) (some p)
    else
      foldBest rest best_score best

/-- The pairs one cleaner probe examines: the first 8 pairs (in clock
order from the cleaner head) whose value_nb_mutex has no users. -/
def cleaner_examined (l : List Pair) : List Pair :=
  (l.filter (fun p => p.value_users == 0)).take CLEANER_N_TO_CHECK

/-- A pair with the given key and cache_pressure_size, unlocked and clean. -/
def c9pair (key : Int) (pressure : Int) : Pair :=
  pair_init 1 key 0
    { size := 0, nonleaf_size := 0, leaf_size := 0, rollback_size := 0,
      cache_pressure_size := pressure, is_valid := true } false 0 false

/-- The S5 clock list: pressures [0, 5, 0, 10, 0, 3, 0, 0]. -/
def c9clock : List Pair :=
  [c9pair 0 0, c9pair 1 5, c9pair 2 0, c9pair 3 10, c9pair 4 0,
   c9pair 5 3, c9pair 6 0, c9pair 7 0]

/-- The pair created by a successful cachetable_put_internal, as it sits
in the table: freshly initialized, DIRTY, clock count 3, pinned. -/
def putResultPair (fileid : Nat) (key : Int) (value : Nat) (attr : PairAttr)
    (fullhash : Nat) (hcb : Bool) : Pair :=
  { pair_init fileid key value attr true fullhash hcb with
    count := CLOCK_INITIAL_COUNT, value_users := 1 }

/-! ### Lemmas and claim theorems -/

theorem mask_lt_pow (h k : Nat) : h &&& (2 ^ k - 1) < 2 ^ k := by
  rw [Nat.and_pow_two_sub_one_eq_mod]
  exact Nat.mod_lt _ (Nat.pos_pow_of_pos k (by norm_num))

theorem flatten_decomp {α : Type} (l : List (List α)) (n : Nat)
    (hn : n < l.length) :
    l.flatten = (l.take n).flatten ++ l[n] ++ (l.drop (n + 1)).flatten := by
  conv_lhs => rw [← List.take_append_drop n l]
  rw [List.drop_eq_getElem_cons hn, List.flatten_append, List.flatten_cons,
    List.append_assoc]

theorem flatten_set {α : Type} (l : List (List α)) (n : Nat)
    (hn : n < l.length) (L : List α) :
    (l.set n L).flatten = (l.take n).flatten ++ L ++ (l.drop (n + 1)).flatten := by
  rw [List.set_eq_take_append_cons_drop, if_pos hn, List.flatten_append,
    List.flatten_cons, List.append_assoc]

theorem PairTable.bucketAt_set (t : PairTable) (h i : Nat) (L : List Pair)
    (hlt : h < t.m_table.length) :
    PairTable.bucketAt { t with m_table := t.m_table.set h L } i =
      if h = i then L else t.bucketAt i := by
  simp only [PairTable.bucketAt, List.getD_eq_getElem?_getD, List.getElem?_set]
  split
  · simp [if_pos hlt, *]
  · rfl

theorem PairTable.mem_allPairs_of_mem_bucketAt {t : PairTable} {p : Pair}
    {i : Nat} (hp : p ∈ t.bucketAt i) : p ∈ t.allPairs := by
  unfold PairTable.bucketAt at hp
  rw [List.getD_eq_getElem?_getD] at hp
  rcases hlt : t.m_table[i]? with _ | b
  · rw [hlt] at hp; simp at hp
  · rw [hlt] at hp
    simp only [Option.getD_some] at hp
    exact List.mem_flatten.2 ⟨b, List.getElem?_mem hlt, hp⟩

theorem PairTable.WF.mem_bucket {t : PairTable} (wf : t.WF) {p : Pair}
    (hp : p ∈ t.allPairs) :
    p ∈ t.bucketAt (p.fullhash &&& (t.m_table_size - 1)) := by
  rcases List.mem_flatten.1 hp with ⟨b, hb, hpb⟩
  rcases List.mem_iff_getElem.1 hb with ⟨i, hi, rfl⟩
  have hbi : t.bucketAt i = t.m_table[i] := by
    unfold PairTable.bucketAt
    rw [List.getD_eq_getElem?_getD, List.getElem?_eq_getElem hi]
    rfl
  have := wf.bucketed i p (by rw [hbi]; exact hpb)
  rw [this, hbi]
  exact hpb

theorem PairTable.WF.idUnique {t : PairTable} (wf : t.WF) {p q : Pair}
    (hp : p ∈ t.allPairs) (hq : q ∈ t.allPairs)
    (hfid : p.fileid = q.fileid) (hkey : p.key = q.key) : p = q := by
  by_contra hne
  have hsymm : Symmetric (fun p q : Pair => p.fileid ≠ q.fileid ∨ p.key ≠ q.key) := by
    intro a b hab
    rcases hab with h | h
    · exact Or.inl (fun e => h e.symm)
    · exact Or.inr (fun e => h e.symm)
  rcases wf.uniq.forall hsymm hp hq hne with h | h
  · exact h hfid
  · exact h hkey

theorem PairTable.WF.nodup_allPairs {t : PairTable} (wf : t.WF) :
    t.allPairs.Nodup := by
  refine wf.uniq.imp ?_
  intro a b hab heq
  subst heq
  rcases hab with h | h <;> exact h rfl

theorem PairTable.WF.nodup_bucket {t : PairTable} (wf : t.WF) (i : Nat) :
    (t.bucketAt i).Nodup := by
  unfold PairTable.bucketAt
  rw [List.getD_eq_getElem?_getD]
  rcases hlt : t.m_table[i]? with _ | b
  · simp
  · simp only [Option.getD_some]
    exact (List.sublist_flatten_of_mem (List.getElem?_mem hlt)).nodup
      wf.nodup_allPairs

theorem PairTable.find_pair_mem {t : PairTable} {fileid : Nat} {key : Int}
    {h : Nat} {q : Pair} (hf : t.find_pair fileid key h = some q) :
    q ∈ t.allPairs ∧ q.sameId fileid key = true := by
  unfold PairTable.find_pair at hf
  exact ⟨PairTable.mem_allPairs_of_mem_bucketAt (List.mem_of_find?_eq_some hf),
    List.find?_some (p := fun r : Pair => r.sameId fileid key) hf⟩

theorem Pair.sameId_iff {p : Pair} {fileid : Nat} {key : Int} :
    p.sameId fileid key = true ↔ p.fileid = fileid ∧ p.key = key := by
  simp [Pair.sameId, and_comm]

theorem PairTable.WF.find_pair_of_mem {t : PairTable} (wf : t.WF) {p : Pair}
    (hp : p ∈ t.allPairs) :
    t.find_pair p.fileid p.key p.fullhash = some p := by
  have hb := wf.mem_bucket hp
  unfold PairTable.find_pair
  have hsome : (List.find? (fun q => q.sameId p.fileid p.key)
      (t.bucketAt (p.fullhash &&& (t.m_table_size - 1)))).isSome = true :=
    List.find?_isSome.2 ⟨p, hb, by simp [Pair.sameId]⟩
  rcases hq : List.find? (fun q => q.sameId p.fileid p.key)
      (t.bucketAt (p.fullhash &&& (t.m_table_size - 1))) with _ | q
  · rw [hq] at hsome; simp at hsome
  · have hqmem := PairTable.mem_allPairs_of_mem_bucketAt
      (List.mem_of_find?_eq_some hq)
    have hqid := Pair.sameId_iff.1 (List.find?_some (p := fun r : Pair => r.sameId p.fileid p.key) hq)
    have : q = p := wf.idUnique hqmem hp hqid.1 hqid.2
    rw [this]

theorem PairTable.WF.not_mem_of_find_none {t : PairTable} (wf : t.WF)
    {fileid : Nat} {key : Int}
    (hf : t.find_pair fileid key (toku_cachetable_hash fileid key) = none) :
    ∀ q ∈ t.allPairs, ¬(q.fileid = fileid ∧ q.key = key) := by
  intro q hq hid
  have hh : q.fullhash = toku_cachetable_hash fileid key := by
    rw [wf.hashed q hq, hid.1, hid.2]
  have hfind := wf.find_pair_of_mem hq
  rw [hid.1, hid.2, hh, hf] at hfind
  exact Option.noConfusion hfind

theorem pairR_symm : ∀ {p q : Pair}, pairR p q → pairR q p := by
  intro p q h
  rcases h with h | h
  · exact Or.inl (fun e => h e.symm)
  · exact Or.inr (fun e => h e.symm)

theorem PairTable.rehash_table_size (t : PairTable) (n : Nat) :
    (t.rehash n).m_table_size = n := by
  simp [PairTable.rehash, PairTable.m_table_size]

theorem PairTable.bucketAt_rehash (t : PairTable) (n j : Nat) (hj : j < n) :
    (t.rehash n).bucketAt j =
      t.allPairs.filter (fun p => p.fullhash &&& (n - 1) == j) := by
  simp only [PairTable.rehash, PairTable.bucketAt, PairTable.allPairs,
    List.getD_eq_getElem?_getD, List.getElem?_map]
  rw [List.getElem?_eq_getElem (by simpa using hj)]
  simp

theorem PairTable.bucketAt_rehash_ge (t : PairTable) (n j : Nat) (hj : n ≤ j) :
    (t.rehash n).bucketAt j = [] := by
  simp only [PairTable.rehash, PairTable.bucketAt, List.getD_eq_getElem?_getD,
    List.getElem?_map]
  rw [List.getElem?_eq_none (by simpa using hj)]
  rfl

theorem PairTable.mem_rehash_allPairs {t : PairTable} {q : Pair} {k : Nat} :
    q ∈ (t.rehash (2 ^ k)).allPairs ↔ q ∈ t.allPairs := by
  constructor
  · intro hq
    rcases List.mem_flatten.1 hq with ⟨b, hb, hqb⟩
    rcases List.mem_map.1 hb with ⟨j, _, rfl⟩
    exact (List.mem_filter.1 hqb).1
  · intro hq
    refine List.mem_flatten.2 ⟨_, List.mem_map.2
      ⟨q.fullhash &&& (2 ^ k - 1), List.mem_range.2 (mask_lt_pow _ _), rfl⟩, ?_⟩
    exact List.mem_filter.2 ⟨hq, by simp⟩

theorem PairTable.WF.rehash {t : PairTable} (wf : t.WF) (k : Nat) :
    (t.rehash (2 ^ k)).WF := by
  constructor
  · exact ⟨k, by simp [PairTable.rehash]⟩
  · intro i p hp
    rcases Nat.lt_or_ge i (2 ^ k) with hi | hi
    · rw [PairTable.bucketAt_rehash _ _ _ hi] at hp
      have := (List.mem_filter.1 hp).2
      rw [PairTable.rehash_table_size]
      simpa using this
    · rw [PairTable.bucketAt_rehash_ge _ _ _ hi] at hp
      simp at hp
  · show List.Pairwise _ (List.flatten _)
    rw [List.pairwise_flatten]
    constructor
    · intro b hb
      rcases List.mem_map.1 hb with ⟨j, _, rfl⟩
      exact wf.uniq.filter _
    · refine (List.pairwise_map).2 ?_
      refine (List.pairwise_lt_range (2 ^ k)).imp ?_
      intro j1 j2 hlt x hx y hy
      have hx1 := List.mem_filter.1 hx
      have hy1 := List.mem_filter.1 hy
      by_contra hcon
      unfold pairR at hcon
      push_neg at hcon
      have hxy : x = y := wf.idUnique hx1.1 hy1.1 hcon.1 hcon.2
      subst hxy
      have e1 : (x.fullhash &&& (2 ^ k - 1)) = j1 := by simpa using hx1.2
      have e2 : (x.fullhash &&& (2 ^ k - 1)) = j2 := by simpa using hy1.2
      omega
  · intro p hp
    exact wf.hashed p (PairTable.mem_rehash_allPairs.1 hp)

theorem PairTable.put_snd (t : PairTable) (p : Pair) :
    (t.put p).2 = { p with count := CLOCK_INITIAL_COUNT } := by
  unfold PairTable.put PairTable.add_to_clock
  dsimp only
  split <;> rfl

theorem PairTable.bucketAt_eq_getElem {t : PairTable} {i : Nat}
    (hi : i < t.m_table.length) : t.bucketAt i = t.m_table[i] := by
  unfold PairTable.bucketAt
  rw [List.getD_eq_getElem?_getD, List.getElem?_eq_getElem hi]
  rfl

theorem PairTable.putMid_m_table_size (t : PairTable) (p : Pair) :
    (t.putMid p).m_table_size = t.m_table_size := by
  simp [PairTable.putMid, PairTable.m_table_size, PairTable.add_to_clock]

theorem PairTable.putMid_n (t : PairTable) (p : Pair) :
    (t.putMid p).m_n_in_table = t.m_n_in_table + 1 := by
  simp [PairTable.putMid, PairTable.add_to_clock]

theorem PairTable.putMid_flatten {t : PairTable} (p : Pair)
    (hpow : ∃ k, t.m_table.length = 2 ^ k) :
    (t.putMid p).allPairs =
      ((t.m_table.take (p.fullhash &&& (t.m_table_size - 1))).flatten ++
        ({ p with count := CLOCK_INITIAL_COUNT } ::
          t.bucketAt (p.fullhash &&& (t.m_table_size - 1))) ++
        (t.m_table.drop ((p.fullhash &&& (t.m_table_size - 1)) + 1)).flatten) := by
  rcases hpow with ⟨k, hk⟩
  have hlt : (p.fullhash &&& (t.m_table_size - 1)) < t.m_table.length := by
    rw [hk]; unfold PairTable.m_table_size; rw [hk]; exact mask_lt_pow _ _
  unfold PairTable.putMid PairTable.add_to_clock PairTable.allPairs
  dsimp only
  exact flatten_set _ _ hlt _

theorem PairTable.mem_putMid_allPairs {t : PairTable} {p q : Pair}
    (hpow : ∃ k, t.m_table.length = 2 ^ k) :
    q ∈ (t.putMid p).allPairs ↔
      q = { p with count := CLOCK_INITIAL_COUNT } ∨ q ∈ t.allPairs := by
  have hlt : (p.fullhash &&& (t.m_table_size - 1)) < t.m_table.length := by
    rcases hpow with ⟨k, hk⟩
    rw [hk]; unfold PairTable.m_table_size; rw [hk]; exact mask_lt_pow _ _
  rw [PairTable.putMid_flatten p hpow]
  have hdec := flatten_decomp t.m_table _ hlt
  have hbe := PairTable.bucketAt_eq_getElem hlt
  constructor
  · intro hq
    rcases List.mem_append.1 hq with hq | hq
    · rcases List.mem_append.1 hq with hq | hq
      · exact Or.inr (by rw [show t.allPairs = _ from hdec]
                         exact List.mem_append.2 (Or.inl (List.mem_append.2 (Or.inl hq))))
      · rcases List.mem_cons.1 hq with hq | hq
        · exact Or.inl hq
        · refine Or.inr ?_
          rw [show t.allPairs = _ from hdec]
          rw [hbe] at hq
          exact List.mem_append.2 (Or.inl (List.mem_append.2 (Or.inr hq)))
    · refine Or.inr ?_
      rw [show t.allPairs = _ from hdec]
      exact List.mem_append.2 (Or.inr hq)
  · intro hq
    rcases hq with rfl | hq
    · exact List.mem_append.2 (Or.inl (List.mem_append.2 (Or.inr (List.mem_cons_self _ _))))
    · rw [show t.allPairs = _ from hdec] at hq
      rcases List.mem_append.1 hq with hq | hq
      · rcases List.mem_append.1 hq with hq | hq
        · exact List.mem_append.2 (Or.inl (List.mem_append.2 (Or.inl hq)))
        · refine List.mem_append.2 (Or.inl (List.mem_append.2 (Or.inr ?_)))
          exact List.mem_cons.2 (Or.inr (by rw [hbe]; exact hq))
      · exact List.mem_append.2 (Or.inr hq)

theorem PairTable.putMid_wf {t : PairTable} {p : Pair} (wf : t.WF)
    (habs : ∀ q ∈ t.allPairs, ¬(q.fileid = p.fileid ∧ q.key = p.key))
    (hhash : p.fullhash = toku_cachetable_hash p.fileid p.key) :
    (t.putMid p).WF := by
  have hlt : (p.fullhash &&& (t.m_table_size - 1)) < t.m_table.length := by
    rcases wf.sizePow with ⟨k, hk⟩
    rw [hk]; unfold PairTable.m_table_size; rw [hk]; exact mask_lt_pow _ _
  have hperm : (t.putMid p).allPairs.Perm
      ({ p with count := CLOCK_INITIAL_COUNT } :: t.allPairs) := by
    rw [PairTable.putMid_flatten p wf.sizePow]
    have hdec := flatten_decomp t.m_table _ hlt
    have hbe := PairTable.bucketAt_eq_getElem hlt
    have e1 : ((t.m_table.take (p.fullhash &&& (t.m_table_size - 1))).flatten ++
          ({ p with count := CLOCK_INITIAL_COUNT } ::
            t.bucketAt (p.fullhash &&& (t.m_table_size - 1))) ++
          (t.m_table.drop ((p.fullhash &&& (t.m_table_size - 1)) + 1)).flatten) =
        ((t.m_table.take (p.fullhash &&& (t.m_table_size - 1))).flatten ++
          ({ p with count := CLOCK_INITIAL_COUNT } ::
            (t.bucketAt (p.fullhash &&& (t.m_table_size - 1)) ++
            (t.m_table.drop ((p.fullhash &&& (t.m_table_size - 1)) + 1)).flatten))) := by
      simp
    have e2 : t.allPairs =
        ((t.m_table.take (p.fullhash &&& (t.m_table_size - 1))).flatten ++
          (t.bucketAt (p.fullhash &&& (t.m_table_size - 1)) ++
          (t.m_table.drop ((p.fullhash &&& (t.m_table_size - 1)) + 1)).flatten)) := by
      unfold PairTable.allPairs
      rw [hbe, ← List.append_assoc]
      exact hdec
    rw [e1, e2]
    exact List.perm_middle
  constructor
  · rcases wf.sizePow with ⟨k, hk⟩
    exact ⟨k, by simpa [PairTable.putMid, PairTable.add_to_clock] using hk⟩
  · intro i q hq
    have hsz : (t.putMid p).m_table_size = t.m_table_size :=
      PairTable.putMid_m_table_size t p
    have hba : (t.putMid p).bucketAt i =
        if (p.fullhash &&& (t.m_table_size - 1)) = i then
          ({ p with count := CLOCK_INITIAL_COUNT } ::
            t.bucketAt (p.fullhash &&& (t.m_table_size - 1)))
        else t.bucketAt i := by
      unfold PairTable.putMid PairTable.add_to_clock
      dsimp only
      exact PairTable.bucketAt_set _ _ _ _ hlt
    rw [hba] at hq
    rw [hsz]
    by_cases hcase : (p.fullhash &&& (t.m_table_size - 1)) = i
    · rw [if_pos hcase] at hq
      rcases List.mem_cons.1 hq with rfl | hq
      · simpa using hcase
      · rw [← hcase]
        exact wf.bucketed _ q hq
    · rw [if_neg hcase] at hq
      exact wf.bucketed i q hq
  · refine (List.Perm.pairwise_iff
        (R := fun p q : Pair => p.fileid ≠ q.fileid ∨ p.key ≠ q.key)
        (fun h => pairR_symm h) hperm).2 ?_
    rw [List.pairwise_cons]
    constructor
    · intro q hq
      have hne := habs q hq
      show pairR _ q
      unfold pairR
      by_contra hcon
      push_neg at hcon
      exact hne ⟨hcon.1.symm, hcon.2.symm⟩
    · exact wf.uniq
  · intro q hq
    rcases (PairTable.mem_putMid_allPairs wf.sizePow).1 hq with rfl | hq
    · simpa using hhash
    · exact wf.hashed q hq

theorem PairTable.put_fst_eq (t : PairTable) (p : Pair) :
    (t.put p).1 = if (t.putMid p).m_n_in_table > (t.putMid p).m_table_size then
      (t.putMid p).rehash ((t.putMid p).m_table_size * 2) else t.putMid p := by
  unfold PairTable.put
  dsimp only
  split <;> simp [*]

theorem PairTable.mem_put_allPairs {t : PairTable} {p q : Pair}
    (hpow : ∃ k, t.m_table.length = 2 ^ k) :
    q ∈ (t.put p).1.allPairs ↔
      q = { p with count := CLOCK_INITIAL_COUNT } ∨ q ∈ t.allPairs := by
  rcases hpow with ⟨k, hk⟩
  have hsz : (t.putMid p).m_table_size = 2 ^ k := by
    rw [PairTable.putMid_m_table_size]; exact hk
  rw [PairTable.put_fst_eq]
  split
  · rw [hsz, show (2 ^ k) * 2 = 2 ^ (k + 1) by ring, PairTable.mem_rehash_allPairs]
    exact PairTable.mem_putMid_allPairs ⟨k, hk⟩
  · exact PairTable.mem_putMid_allPairs ⟨k, hk⟩

theorem PairTable.put_wf {t : PairTable} {p : Pair} (wf : t.WF)
    (habs : ∀ q ∈ t.allPairs, ¬(q.fileid = p.fileid ∧ q.key = p.key))
    (hhash : p.fullhash = toku_cachetable_hash p.fileid p.key) :
    (t.put p).1.WF := by
  rcases wf.sizePow with ⟨k, hk⟩
  have hsz : (t.putMid p).m_table_size = 2 ^ k := by
    rw [PairTable.putMid_m_table_size]; exact hk
  rw [PairTable.put_fst_eq]
  split
  · rw [hsz, show (2 ^ k) * 2 = 2 ^ (k + 1) by ring]
    exact (PairTable.putMid_wf wf habs hhash).rehash (k + 1)
  · exact PairTable.putMid_wf wf habs hhash

theorem PairTable.evictMid_m_table_size (t : PairTable) (p : Pair) :
    (t.evictMid p).m_table_size = t.m_table_size := by
  simp [PairTable.evictMid, PairTable.pair_remove, PairTable.pending_pairs_remove,
    PairTable.m_table_size]

theorem PairTable.evictMid_flatten {t : PairTable} (p : Pair)
    (hpow : ∃ k, t.m_table.length = 2 ^ k) :
    (t.evictMid p).allPairs =
      ((t.m_table.take (p.fullhash &&& (t.m_table_size - 1))).flatten ++
        (t.bucketAt (p.fullhash &&& (t.m_table_size - 1))).erase p ++
        (t.m_table.drop ((p.fullhash &&& (t.m_table_size - 1)) + 1)).flatten) := by
  rcases hpow with ⟨k, hk⟩
  have hlt : (p.fullhash &&& (t.m_table_size - 1)) < t.m_table.length := by
    rw [hk]; unfold PairTable.m_table_size; rw [hk]; exact mask_lt_pow _ _
  unfold PairTable.evictMid PairTable.pair_remove PairTable.pending_pairs_remove
    PairTable.allPairs
  dsimp only
  exact flatten_set _ _ hlt _

theorem PairTable.mem_evictMid_allPairs {t : PairTable} {p q : Pair}
    (wf : t.WF) :
    q ∈ (t.evictMid p).allPairs ↔ q ∈ t.allPairs ∧ q ≠ p := by
  have hlt : (p.fullhash &&& (t.m_table_size - 1)) < t.m_table.length := by
    rcases wf.sizePow with ⟨k, hk⟩
    rw [hk]; unfold PairTable.m_table_size; rw [hk]; exact mask_lt_pow _ _
  have hbe := PairTable.bucketAt_eq_getElem hlt
  have hdec : t.allPairs =
      ((t.m_table.take (p.fullhash &&& (t.m_table_size - 1))).flatten ++
        t.bucketAt (p.fullhash &&& (t.m_table_size - 1)) ++
        (t.m_table.drop ((p.fullhash &&& (t.m_table_size - 1)) + 1)).flatten) := by
    unfold PairTable.allPairs
    rw [hbe]
    exact flatten_decomp t.m_table _ hlt
  have hnd : t.allPairs.Nodup := wf.nodup_allPairs
  rw [hdec] at hnd
  have hndB : (t.bucketAt (p.fullhash &&& (t.m_table_size - 1))).Nodup :=
    wf.nodup_bucket _
  have hdisj1 := (List.nodup_append.1 ((List.nodup_append.1 hnd).1)).2.2
  have hdisj2 := (List.nodup_append.1 hnd).2.2
  rw [PairTable.evictMid_flatten p wf.sizePow, hdec]
  constructor
  · intro hq
    rcases List.mem_append.1 hq with hq | hq
    · rcases List.mem_append.1 hq with hq | hq
      · refine ⟨List.mem_append.2 (Or.inl (List.mem_append.2 (Or.inl hq))), ?_⟩
        rintro rfl
        have hpB : q ∈ t.bucketAt (q.fullhash &&& (t.m_table_size - 1)) :=
          wf.mem_bucket (by rw [hdec]
                            exact List.mem_append.2 (Or.inl (List.mem_append.2 (Or.inl hq))))
        exact hdisj1 hq hpB
      · have := (hndB.mem_erase_iff).1 hq
        exact ⟨List.mem_append.2 (Or.inl (List.mem_append.2 (Or.inr this.2))), this.1⟩
    · refine ⟨List.mem_append.2 (Or.inr hq), ?_⟩
      rintro rfl
      have hpB : q ∈ t.bucketAt (q.fullhash &&& (t.m_table_size - 1)) :=
        wf.mem_bucket (by rw [hdec]; exact List.mem_append.2 (Or.inr hq))
      exact hdisj2 (List.mem_append.2 (Or.inr hpB)) hq
  · rintro ⟨hq, hne⟩
    rcases List.mem_append.1 hq with hq | hq
    · rcases List.mem_append.1 hq with hq | hq
      · exact List.mem_append.2 (Or.inl (List.mem_append.2 (Or.inl hq)))
      · exact List.mem_append.2 (Or.inl (List.mem_append.2 (Or.inr
          ((hndB.mem_erase_iff).2 ⟨hne, hq⟩))))
    · exact List.mem_append.2 (Or.inr hq)

theorem PairTable.evictMid_wf {t : PairTable} {p : Pair} (wf : t.WF) :
    (t.evictMid p).WF := by
  have hlt : (p.fullhash &&& (t.m_table_size - 1)) < t.m_table.length := by
    rcases wf.sizePow with ⟨k, hk⟩
    rw [hk]; unfold PairTable.m_table_size; rw [hk]; exact mask_lt_pow _ _
  have hbe := PairTable.bucketAt_eq_getElem hlt
  have hsub : (t.evictMid p).allPairs.Sublist t.allPairs := by
    rw [PairTable.evictMid_flatten p wf.sizePow,
      show t.allPairs =
        ((t.m_table.take (p.fullhash &&& (t.m_table_size - 1))).flatten ++
          t.bucketAt (p.fullhash &&& (t.m_table_size - 1)) ++
          (t.m_table.drop ((p.fullhash &&& (t.m_table_size - 1)) + 1)).flatten) from
        by unfold PairTable.allPairs
           rw [hbe]
           exact flatten_decomp t.m_table _ hlt]
    exact ((List.erase_sublist p _).append_left _).append_right _
  constructor
  · rcases wf.sizePow with ⟨k, hk⟩
    refine ⟨k, ?_⟩
    have := PairTable.evictMid_m_table_size t p
    unfold PairTable.m_table_size at this
    rw [this]
    exact hk
  · intro i q hq
    have hba : (t.evictMid p).bucketAt i =
        if (p.fullhash &&& (t.m_table_size - 1)) = i then
          (t.bucketAt (p.fullhash &&& (t.m_table_size - 1))).erase p
        else t.bucketAt i := by
      unfold PairTable.evictMid PairTable.pair_remove PairTable.pending_pairs_remove
      dsimp only
      exact PairTable.bucketAt_set _ _ _ _ hlt
    rw [hba] at hq
    have hsz : (t.evictMid p).m_table_size = t.m_table_size :=
      PairTable.evictMid_m_table_size t p
    rw [hsz]
    by_cases hcase : (p.fullhash &&& (t.m_table_size - 1)) = i
    · rw [if_pos hcase] at hq
      rw [← hcase]
      exact wf.bucketed _ q (List.mem_of_mem_erase hq)
    · rw [if_neg hcase] at hq
      exact wf.bucketed i q hq
  · exact wf.uniq.sublist hsub
  · intro q hq
    exact wf.hashed q (hsub.subset hq)

theorem PairTable.evict_eq (t : PairTable) (p : Pair) :
    t.evict p = if 4 * (t.evictMid p).m_n_in_table < (t.evictMid p).m_table_size ∧
        (t.evictMid p).m_table_size > 4 then
      (t.evictMid p).rehash ((t.evictMid p).m_table_size / 2) else t.evictMid p := by
  unfold PairTable.evict
  rfl

theorem pow_div_two {k : Nat} (hk : 2 < k) : (2 ^ k) / 2 = 2 ^ (k - 1) := by
  conv_lhs => rw [show k = (k - 1) + 1 by omega, pow_succ]
  exact Nat.mul_div_cancel _ (by norm_num)

theorem gt_four_pow {k : Nat} (h4 : (4 : Nat) < 2 ^ k) : 2 < k := by
  by_contra hle
  push_neg at hle
  interval_cases k <;> omega

theorem PairTable.mem_evict_allPairs {t : PairTable} {p q : Pair} (wf : t.WF) :
    q ∈ (t.evict p).allPairs ↔ q ∈ t.allPairs ∧ q ≠ p := by
  rcases wf.sizePow with ⟨k, hk⟩
  have hsz : (t.evictMid p).m_table_size = 2 ^ k := by
    rw [PairTable.evictMid_m_table_size]; exact hk
  rw [PairTable.evict_eq]
  split
  · rename_i hcond
    have hk3 : 2 < k := gt_four_pow (by rw [← hsz]; exact hcond.2)
    rw [hsz, pow_div_two hk3, PairTable.mem_rehash_allPairs]
    exact PairTable.mem_evictMid_allPairs wf
  · exact PairTable.mem_evictMid_allPairs wf

theorem PairTable.evict_wf {t : PairTable} {p : Pair} (wf : t.WF) :
    (t.evict p).WF := by
  rcases wf.sizePow with ⟨k, hk⟩
  have hsz : (t.evictMid p).m_table_size = 2 ^ k := by
    rw [PairTable.evictMid_m_table_size]; exact hk
  rw [PairTable.evict_eq]
  split
  · rename_i hcond
    have hk3 : 2 < k := gt_four_pow (by rw [← hsz]; exact hcond.2)
    rw [hsz, pow_div_two hk3]
    exact (PairTable.evictMid_wf wf).rehash (k - 1)
  · exact PairTable.evictMid_wf wf

theorem PairTable.find_pair_evict_none {t : PairTable} {p : Pair} (wf : t.WF)
    (hp : p ∈ t.allPairs) (h' : Nat) :
    (t.evict p).find_pair p.fileid p.key h' = none := by
  unfold PairTable.find_pair
  rw [List.find?_eq_none]
  intro x hx
  have hxall := PairTable.mem_allPairs_of_mem_bucketAt hx
  have hxm := (PairTable.mem_evict_allPairs wf).1 hxall
  intro hpred
  rcases Pair.sameId_iff.1 hpred with ⟨hfid, hkey⟩
  exact hxm.2 (wf.idUnique hxm.1 hp hfid hkey)

theorem guardUpd_id_preserving {fileid : Nat} {key : Int} {f : Pair → Pair}
    (hf : IdPreserving f) : IdPreserving (guardUpd fileid key f) := by
  intro q
  unfold guardUpd
  split
  · exact hf q
  · exact ⟨rfl, rfl, rfl⟩

theorem PairTable.modify_m_table_size (t : PairTable) (fileid : Nat)
    (key : Int) (f : Pair → Pair) :
    (t.modifyPair fileid key f).m_table_size = t.m_table_size := by
  simp [PairTable.modifyPair, PairTable.m_table_size]

theorem PairTable.bucketAt_modify (t : PairTable) (fileid : Nat) (key : Int)
    (f : Pair → Pair) (i : Nat) :
    (t.modifyPair fileid key f).bucketAt i =
      (t.bucketAt i).map (guardUpd fileid key f) := by
  unfold PairTable.modifyPair PairTable.bucketAt guardUpd
  dsimp only
  rw [List.getD_eq_getElem?_getD, List.getD_eq_getElem?_getD, List.getElem?_map]
  cases t.m_table[i]? <;> rfl

theorem PairTable.allPairs_modify (t : PairTable) (fileid : Nat) (key : Int)
    (f : Pair → Pair) :
    (t.modifyPair fileid key f).allPairs =
      t.allPairs.map (guardUpd fileid key f) := by
  unfold PairTable.modifyPair PairTable.allPairs guardUpd
  dsimp only
  rw [List.map_flatten]

theorem PairTable.find_pair_modify (t : PairTable) {fileid : Nat} {key : Int}
    {f : Pair → Pair} (hf : IdPreserving f) (fileid' : Nat) (key' : Int)
    (h : Nat) :
    (t.modifyPair fileid key f).find_pair fileid' key' h =
      Option.map (guardUpd fileid key f) (t.find_pair fileid' key' h) := by
  unfold PairTable.find_pair
  rw [PairTable.modify_m_table_size, PairTable.bucketAt_modify,
    List.find?_map]
  have hpred : ((fun p : Pair => p.sameId fileid' key') ∘ guardUpd fileid key f) =
      (fun p : Pair => p.sameId fileid' key') := by
    funext q
    rcases @guardUpd_id_preserving fileid key f hf q with ⟨h1, h2, _⟩
    simp [Function.comp, Pair.sameId, h1, h2]
  rw [hpred]

theorem PairTable.modify_wf {t : PairTable} {fileid : Nat} {key : Int}
    {f : Pair → Pair} (wf : t.WF) (hf : IdPreserving f) :
    (t.modifyPair fileid key f).WF := by
  have hgp := @guardUpd_id_preserving fileid key f hf
  constructor
  · rcases wf.sizePow with ⟨k, hk⟩
    exact ⟨k, by simpa [PairTable.modifyPair] using hk⟩
  · intro i q hq
    rw [PairTable.bucketAt_modify] at hq
    rcases List.mem_map.1 hq with ⟨r, hr, rfl⟩
    rw [PairTable.modify_m_table_size, (hgp r).2.2]
    exact wf.bucketed i r hr
  · rw [PairTable.allPairs_modify]
    refine (List.pairwise_map).2 ?_
    refine wf.uniq.imp ?_
    intro a b hab
    rcases hab with hab | hab
    · exact Or.inl (by rw [(hgp a).1, (hgp b).1]; exact hab)
    · exact Or.inr (by rw [(hgp a).2.1, (hgp b).2.1]; exact hab)
  · intro q hq
    rw [PairTable.allPairs_modify] at hq
    rcases List.mem_map.1 hq with ⟨r, hr, rfl⟩
    rw [(hgp r).1, (hgp r).2.1, (hgp r).2.2]
    exact wf.hashed r hr

/-! ### The cachetable state and its operations -/

theorem PairTable.init_wf : PairTable.init.WF := by
  constructor
  · exact ⟨2, by simp [PairTable.init, INITIAL_PAIR_LIST_SIZE]⟩
  · intro i p hp
    exfalso
    unfold PairTable.init PairTable.bucketAt at hp
    rw [List.getD_eq_getElem?_getD] at hp
    rcases hlt : (List.replicate INITIAL_PAIR_LIST_SIZE ([] : List Pair))[i]? with _ | b
    · rw [hlt] at hp; simp at hp
    · rw [hlt] at hp
      have := List.getElem?_mem hlt
      rw [List.eq_of_mem_replicate this] at hp
      simp at hp
  · have : PairTable.init.allPairs = [] := by
      simp [PairTable.init, PairTable.allPairs, INITIAL_PAIR_LIST_SIZE,
        List.replicate]
    rw [this]
    exact List.Pairwise.nil
  · intro p hp
    exfalso
    have : PairTable.init.allPairs = [] := by
      simp [PairTable.init, PairTable.allPairs, INITIAL_PAIR_LIST_SIZE,
        List.replicate]
    rw [this] at hp
    simp at hp

/-! ### Claim theorems -/

/-- C8: for every size_limit L given at cachetable creation (0 replaced by
the 128 MiB default), the evictor's thresholds are exactly
low_watermark = L, low_hysteresis = 11·L/10, high_hysteresis = 5·L/4 and
high_watermark = 3·L/2 (integer arithmetic); when 20 divides L those
integer values are exactly 1.1·L, 1.25·L and 1.5·L; for the default the
concrete values are 134217728, 147639500, 167772160, 201326592. -/
theorem C8_watermarks :
    (∀ L : Int, L ≠ 0 →
      (toku_create_cachetable L).m_low_size_watermark = L ∧
      (toku_create_cachetable L).m_low_size_hysteresis = 11 * L / 10 ∧
      (toku_create_cachetable L).m_high_size_hysteresis = 5 * L / 4 ∧
      (toku_create_cachetable L).m_high_size_watermark = 3 * L / 2) ∧
    (∀ L : Int, L ≠ 0 → (20 : Int) ∣ L →
      10 * (toku_create_cachetable L).m_low_size_hysteresis = 11 * L ∧
      4 * (toku_create_cachetable L).m_high_size_hysteresis = 5 * L ∧
      2 * (toku_create_cachetable L).m_high_size_watermark = 3 * L) ∧
    ((toku_create_cachetable 0).m_low_size_watermark = 134217728 ∧
      (toku_create_cachetable 0).m_low_size_hysteresis = 147639500 ∧
      (toku_create_cachetable 0).m_high_size_hysteresis = 167772160 ∧
      (toku_create_cachetable 0).m_high_size_watermark = 201326592) := by
  refine ⟨?_, ?_, ?_⟩
  · intro L hL
    simp [toku_create_cachetable, evictor_init, if_neg hL]
  · intro L hL hdvd
    simp only [toku_create_cachetable, evictor_init, if_neg hL]
    rcases hdvd with ⟨m, rfl⟩
    refine ⟨?_, ?_, ?_⟩ <;> omega
  · refine ⟨?_, ?_, ?_, ?_⟩ <;> rfl

/-- C8 witness: the theorem applied at L = 40. -/
theorem C8_watermarks_witness :
    (toku_create_cachetable 40).m_low_size_watermark = 40 ∧
    10 * (toku_create_cachetable 40).m_low_size_hysteresis = 440 ∧
    4 * (toku_create_cachetable 40).m_high_size_hysteresis = 200 ∧
    2 * (toku_create_cachetable 40).m_high_size_watermark = 120 :=
  ⟨(C8_watermarks.1 40 (by decide)).1,
   (C8_watermarks.2.1 40 (by decide) (by decide)).1,
   (C8_watermarks.2.1 40 (by decide) (by decide)).2.1,
   (C8_watermarks.2.1 40 (by decide) (by decide)).2.2⟩

/-- C10: when a pair is finally removed and freed its flush callback is
invoked exactly once, with write_me = false, keep_me = false, a NULL
cachefile argument and fd = -1 in place of the pair's cachefile and file
descriptor, and with for_checkpoint passed as true — unlike the writing
flush invocations, which always receive the pair's cachefile and its fd.
Concretely, unpin_and_remove emits exactly one such releasing flush call,
and it is cachetable_free_pair's. -/
theorem C10_free_pair_flush :
    (∀ p : Pair,
      (cachetable_free_pair p).cachefile = none ∧
      (cachetable_free_pair p).fd = -1 ∧
      (cachetable_free_pair p).write_me = false ∧
      (cachetable_free_pair p).keep_me = false ∧
      (cachetable_free_pair p).for_checkpoint = true ∧
      (cachetable_free_pair p).is_clone = false ∧
      (cachetable_free_pair p).key = p.key ∧
      (cachetable_free_pair p).value = p.value_data) ∧
    (∀ (cf : Cachefile) (p : Pair) (fc ic : Bool),
      (cachetable_only_write_locked_data cf p fc ic).cachefile = some cf.fileid ∧
      (cachetable_only_write_locked_data cf p fc ic).fd = cf.fd ∧
      (cachetable_only_write_locked_data cf p fc ic).write_me = true) ∧
    (∀ (s : CacheState) (cf : Cachefile) (key : Int) (fullhash : Nat)
        (rkp : Bool) (s' : CacheState) (evs : List CTEvent) (p : Pair),
      s.list.find_pair cf.fileid key fullhash = some p →
      toku_cachetable_unpin_and_remove s cf key fullhash rkp = some (s', evs) →
      evs.filter isReleaseFlush =
        [CTEvent.flush_cb (cachetable_free_pair (unpin_remove_upd p))]) := by
  refine ⟨?_, ?_, ?_⟩
  · intro p
    exact ⟨rfl, rfl, rfl, rfl, rfl, rfl, rfl, rfl⟩
  · intro cf p fc ic
    exact ⟨rfl, rfl, rfl⟩
  · intro s cf key fullhash rkp s' evs p hfind hrun
    unfold toku_cachetable_unpin_and_remove at hrun
    rw [hfind] at hrun
    dsimp only at hrun
    by_cases hblock : p.value_users = 0 ∨ p.disk_users > 0
    · rw [if_pos hblock] at hrun
      exact absurd hrun (by simp)
    · rw [if_neg hblock] at hrun
      have hevs : evs = (if rkp then
          [CTEvent.remove_key_cb key p.checkpoint_pending] else []) ++
          [CTEvent.flush_cb (cachetable_free_pair (unpin_remove_upd p))] := by
        have := hrun
        simp only [Option.some.injEq, Prod.mk.injEq] at this
        exact this.2.symm
      rw [hevs]
      by_cases hrk : rkp
      · simp [hrk, isReleaseFlush, cachetable_free_pair]
      · simp [hrk, isReleaseFlush, cachetable_free_pair]

/-- C10 witness: removing the concrete pinned pair emits exactly the one
releasing flush call, with NULL cachefile, fd = -1 and for_checkpoint
true. -/
theorem C10_free_pair_flush_witness :
    Option.map (fun r => r.2.filter isReleaseFlush)
      (toku_cachetable_unpin_and_remove exRemState ⟨1, 7⟩ 5 0 true) =
      some [CTEvent.flush_cb (cachetable_free_pair (unpin_remove_upd exRemPair))] := by
  rcases hrun : toku_cachetable_unpin_and_remove exRemState ⟨1, 7⟩ 5 0 true with _ | r
  · exact absurd hrun (by decide)
  · exact congrArg some (C10_free_pair_flush.2.2 exRemState ⟨1, 7⟩ 5 0 true
      r.1 r.2 exRemPair (by decide) (by rw [hrun]))

theorem PairTable.modify_comp (t : PairTable) (fileid : Nat) (key : Int)
    {f : Pair → Pair} (g : Pair → Pair) (hf : IdPreserving f) :
    (t.modifyPair fileid key f).modifyPair fileid key g =
      t.modifyPair fileid key (fun q => g (f q)) := by
  unfold PairTable.modifyPair
  dsimp only
  congr 1
  rw [List.map_map]
  congr 1
  funext b
  simp only [Function.comp_apply]
  rw [List.map_map]
  congr 1
  funext q
  by_cases hq : q.sameId fileid key
  · have hfq : (f q).sameId fileid key = true := by
      rcases hf q with ⟨h1, h2, _⟩
      rcases Pair.sameId_iff.1 hq with ⟨e1, e2⟩
      exact Pair.sameId_iff.2 ⟨by rw [h1, e1], by rw [h2, e2]⟩
    simp [Function.comp, hq, hfq]
  · simp [Function.comp, hq]

theorem PairTable.modify_eta (t : PairTable) (fileid : Nat) (key : Int)
    {f : Pair → Pair} (hf : ∀ q, f q = q) :
    t.modifyPair fileid key f = t := by
  unfold PairTable.modifyPair
  have : (fun p : Pair => if p.sameId fileid key then f p else p) = id := by
    funext q
    by_cases hq : q.sameId fileid key <;> simp [hq, hf q]
  rw [this]
  simp

theorem CacheState.unlock_lock (s : CacheState) (fileid : Nat) (key : Int) :
    (s.lockValue fileid key).unlockValue fileid key = s := by
  unfold CacheState.lockValue CacheState.unlockValue
  dsimp only
  have hl : (s.list.modifyPair fileid key
        (fun q => { q with value_users := q.value_users + 1 })).modifyPair fileid key
        (fun q => { q with value_users := q.value_users - 1 }) = s.list := by
    rw [PairTable.modify_comp (f := fun q => { q with value_users := q.value_users + 1 })
      _ _ _ _ (fun q => ⟨rfl, rfl, rfl⟩)]
    exact PairTable.modify_eta _ _ _ (fun q => by simp)
  simp only [hl]

/-- C4 (amended): the non-clean try-pin succeeds exactly when the pair is
present, uncontended, dirty and not checkpoint-pending; the clean variant
drops only the dirtiness requirement but still refuses a
checkpoint-pending pair; on failure both return -1 with the state (in
particular every lock count) unchanged; on success the pair is pinned and
its value handle returned. -/
theorem C4_maybe_get_and_pin :
    ∀ (s : CacheState) (cf : Cachefile) (key : Int) (h : Nat),
    ((toku_cachetable_maybe_get_and_pin s cf key h).1 = 0 ↔
      ∃ p, s.list.find_pair cf.fileid key h = some p ∧ p.dirty = true ∧
        p.value_users = 0 ∧ p.checkpoint_pending = false) ∧
    ((toku_cachetable_maybe_get_and_pin_clean s cf key h).1 = 0 ↔
      ∃ p, s.list.find_pair cf.fileid key h = some p ∧
        p.value_users = 0 ∧ p.checkpoint_pending = false) ∧
    ((toku_cachetable_maybe_get_and_pin s cf key h).1 ≠ 0 →
      toku_cachetable_maybe_get_and_pin s cf key h = (-1, none, s)) ∧
    ((toku_cachetable_maybe_get_and_pin_clean s cf key h).1 ≠ 0 →
      toku_cachetable_maybe_get_and_pin_clean s cf key h = (-1, none, s)) ∧
    (∀ p, s.list.find_pair cf.fileid key h = some p → p.dirty = true →
      p.value_users = 0 → p.checkpoint_pending = false →
      toku_cachetable_maybe_get_and_pin s cf key h =
        (0, some p.value_data, s.lockValue cf.fileid key)) := by
  intro s cf key h
  unfold toku_cachetable_maybe_get_and_pin toku_cachetable_maybe_get_and_pin_clean
  rcases hfind : s.list.find_pair cf.fileid key h with _ | p
  · refine ⟨by simp, by simp, fun _ => rfl, fun _ => rfl, ?_⟩
    intro p hp
    exact absurd hp (by simp)
  · dsimp only
    refine ⟨?_, ?_, ?_, ?_, ?_⟩
    · constructor
      · intro hr
        by_cases hcond : p.dirty ∧ p.value_users = 0
        · rw [if_pos hcond] at hr
          by_cases hpend : p.checkpoint_pending
          · rw [if_pos hpend] at hr; simp at hr
          · exact ⟨p, rfl, by simpa using hcond.1, hcond.2, by simpa using hpend⟩
        · rw [if_neg hcond] at hr; simp at hr
      · rintro ⟨q, hq, hd, hu, hp⟩
        injection hq with hq
        subst hq
        rw [if_pos ⟨by simp [hd], hu⟩, if_neg (by simp [hp])]
    · constructor
      · intro hr
        by_cases hcond : p.value_users = 0
        · rw [if_pos hcond] at hr
          by_cases hpend : p.checkpoint_pending
          · rw [if_pos hpend] at hr; simp at hr
          · exact ⟨p, rfl, hcond, by simpa using hpend⟩
        · rw [if_neg hcond] at hr; simp at hr
      · rintro ⟨q, hq, hu, hp⟩
        injection hq with hq
        subst hq
        rw [if_pos hu, if_neg (by simp [hp])]
    · intro hr
      by_cases hcond : p.dirty ∧ p.value_users = 0
      · rw [if_pos hcond] at hr ⊢
        by_cases hpend : p.checkpoint_pending
        · rw [if_pos hpend] at hr ⊢
          rw [CacheState.unlock_lock]
        · rw [if_neg hpend] at hr
          exact absurd rfl hr
      · rw [if_neg hcond]
    · intro hr
      by_cases hcond : p.value_users = 0
      · rw [if_pos hcond] at hr ⊢
        by_cases hpend : p.checkpoint_pending
        · rw [if_pos hpend] at hr ⊢
          rw [CacheState.unlock_lock]
        · rw [if_neg hpend] at hr
          exact absurd rfl hr
      · rw [if_neg hcond]
    · intro q hq hd hu hp
      injection hq with hq
      subst hq
      rw [if_pos ⟨by simp [hd], hu⟩, if_neg (by simp [hp])]

/-- C4 counterexample: the claim says the clean variant succeeds whenever
the pair is present with no users of its value_nb_mutex; here the pair is
present with zero users, yet toku_cachetable_maybe_get_and_pin_clean
returns -1, because the clean variant also refuses a checkpoint-pending
pair (cachetable.cc:1792). -/
theorem C4_counterexample :
    (toku_cachetable_maybe_get_and_pin_clean c4exState ⟨1, 7⟩ 5 0).1 = -1 ∧
    c4exState.list.find_pair 1 5 0 = some c4exPair ∧
    c4exPair.value_users = 0 := by
  decide

/-- C4 witness: both variants succeed on a concrete present, dirty,
uncontended, non-pending pair. -/
theorem C4_maybe_get_and_pin_witness :
    (toku_cachetable_maybe_get_and_pin c4okState ⟨1, 7⟩ 5 0).1 = 0 ∧
    (toku_cachetable_maybe_get_and_pin_clean c4okState ⟨1, 7⟩ 5 0).1 = 0 :=
  ⟨(C4_maybe_get_and_pin c4okState ⟨1, 7⟩ 5 0).1.mpr
      ⟨c4okPair, by decide, by decide, by decide, by decide⟩,
   (C4_maybe_get_and_pin c4okState ⟨1, 7⟩ 5 0).2.1.mpr
      ⟨c4okPair, by decide, by decide, by decide⟩⟩

theorem foldl_cons_mem (l : List PendPair) (init : List Nat) (x : Nat) :
    (x ∈ l.foldl (fun acc p => p.id :: acc) init) ↔
      (∃ p ∈ l, p.id = x) ∨ x ∈ init := by
  induction l generalizing init with
  | nil => simp
  | cons p rest ih =>
    simp only [List.foldl_cons]
    rw [ih]
    simp only [List.mem_cons]
    constructor
    · rintro (⟨q, hq, rfl⟩ | (rfl | hx))
      · exact Or.inl ⟨q, Or.inr hq, rfl⟩
      · exact Or.inl ⟨p, Or.inl rfl, rfl⟩
      · exact Or.inr hx
    · rintro (⟨q, (rfl | hq), rfl⟩ | hx)
      · exact Or.inr (Or.inl rfl)
      · exact Or.inl ⟨q, hq, rfl⟩
      · exact Or.inr (Or.inr hx)

/-- C2 (amended): every operation on the pending machinery preserves the
direction checkpoint_pending = true ⇒ the pair is linked into the pending
list.  (The converse does not hold: operations that clear the bit leave
the pair on the pending list until the checkpointer pops it or the pair is
evicted — see the counterexample.) -/
theorem C2_pending_invariant (s : PendState) (op : PendOp) (hinv : PendInv s) :
    PendInv (pendStep s op) := by
  cases op with
  | turn_on_pending_bits =>
    intro p hp _
    simp only [pendStep] at hp ⊢
    rcases List.mem_map.1 hp with ⟨q, hq, rfl⟩
    rw [foldl_cons_mem]
    exact Or.inl ⟨q, hq, rfl⟩
  | client_clear id =>
    intro p hp hbit
    simp only [pendStep] at hp ⊢
    rcases List.mem_map.1 hp with ⟨q, hq, rfl⟩
    by_cases hid : q.id = id
    · rw [if_pos hid] at hbit
      simp at hbit
    · rw [if_neg hid] at hbit ⊢
      exact hinv q hq hbit
  | checkpointer_pop =>
    intro p hpmem hbit
    rcases hp : s.pending with _ | ⟨id, rest⟩
    · simp only [pendStep, hp] at hpmem ⊢
      have hmem := hinv p hpmem hbit
      rw [hp] at hmem
      simp at hmem
    · simp only [pendStep, hp] at hpmem ⊢
      rcases List.mem_map.1 hpmem with ⟨q, hq, rfl⟩
      by_cases hid : q.id = id
      · rw [if_pos hid] at hbit
        simp at hbit
      · rw [if_neg hid] at hbit ⊢
        have := hinv q hq hbit
        rw [hp] at this
        rcases List.mem_cons.1 this with h | h
        · exact absurd h hid
        · exact h
  | evict id =>
    intro p hpmem hbit
    simp only [pendStep] at hpmem ⊢
    have hf := List.mem_filter.1 hpmem
    have hm := hinv p hf.1 hbit
    have hne : p.id ≠ id := by simpa using hf.2
    exact (List.mem_erase_of_ne hne).2 hm

/-- C2 witness: the invariant theorem applied to a concrete state and a
concrete bit-clearing operation. -/
theorem C2_pending_invariant_witness :
    PendInv (pendStep { pairs := [{ id := 1, checkpoint_pending := true }],
                        pending := [1] } (PendOp.client_clear 1)) :=
  C2_pending_invariant _ (PendOp.client_clear 1)
    (by intro p hp hbit
        rw [List.mem_singleton] at hp
        subst hp
        simp)

/-- C2 counterexample: starting from one pair with a clear bit, running
turn_on_pending_bits and then a client clear (get_checkpoint_pending,
cachetable.cc:1339) leaves the pair linked into the pending list with
checkpoint_pending = false: the "if and only if" of the claim fails, and
the clearing operation did not unlink the pair. -/
theorem C2_counterexample :
    (pendStep (pendStep { pairs := [{ id := 0, checkpoint_pending := false }],
                          pending := [] }
        PendOp.turn_on_pending_bits) (PendOp.client_clear 0)).pairs =
      [{ id := 0, checkpoint_pending := false }] ∧
    (pendStep (pendStep { pairs := [{ id := 0, checkpoint_pending := false }],
                          pending := [] }
        PendOp.turn_on_pending_bits) (PendOp.client_clear 0)).pending = [0] := by
  decide

theorem logged_not_mem_wp_events (p : CkPair) :
    CkEvent.logged_end_checkpoint ∉ write_pair_for_checkpoint_thread_events p := by
  unfold write_pair_for_checkpoint_thread_events
  split
  · split <;> simp
  · simp

theorem logged_not_mem_drain (l : List CkPair) :
    CkEvent.logged_end_checkpoint ∉ checkpoint_pending_pairs_events l := by
  induction l with
  | nil => simp [checkpoint_pending_pairs_events]
  | cons p rest ih =>
    unfold checkpoint_pending_pairs_events
    intro hmem
    rcases List.mem_append.1 hmem with h | h
    · exact logged_not_mem_wp_events p h
    · exact ih h

theorem wp_events_sub_drain {l : List CkPair} {q : CkPair} (hq : q ∈ l) :
    ∀ e ∈ write_pair_for_checkpoint_thread_events q,
      e ∈ checkpoint_pending_pairs_events l := by
  induction l with
  | nil => cases hq
  | cons p rest ih =>
    intro e he
    unfold checkpoint_pending_pairs_events
    rcases List.mem_cons.1 hq with rfl | hq'
    · exact List.mem_append.2 (Or.inl he)
    · exact List.mem_append.2 (Or.inr (ih hq' e he))

/-- C1: for every checkpoint cycle, every pair that is dirty and
checkpoint-pending when begin_checkpoint returns is written out — either
synchronously under its value lock or as a clone (written by the
checkpointer itself or by an outstanding background clone-writer job the
checkpointer waits for) — strictly before end_checkpoint logs its
END_CHECKPOINT record: end_checkpoint first drains the whole pending list
and waits for all clone-writer jobs, and only then calls
log_end_checkpoint. -/
theorem C1_write_before_end_checkpoint (pairs : List CkPair) (jobs : List Nat)
    (p : CkPair) (hp : p ∈ pairs) (hdirty : p.dirty = true)
    (hcf : p.cf_for_checkpoint = true) :
    ∃ pre post,
      checkpoint_cycle_events pairs jobs =
        pre ++ CkEvent.logged_end_checkpoint :: post ∧
      CkEvent.logged_end_checkpoint ∉ pre ∧
      (CkEvent.wrote_sync p.id ∈ pre ∨ CkEvent.wrote_clone p.id ∈ pre) ∧
      (∀ j ∈ jobs, CkEvent.wrote_clone j ∈ pre) := by
  refine ⟨checkpoint_pending_pairs_events (turn_on_pending_bits_ck pairs) ++
      jobs.map CkEvent.wrote_clone ++ [CkEvent.checkpoint_userdata_done],
    [CkEvent.end_checkpoint_userdata_done], ?_, ?_, ?_, ?_⟩
  · unfold checkpoint_cycle_events end_checkpoint_events
    simp
  · intro hmem
    rcases List.mem_append.1 hmem with h | h
    · rcases List.mem_append.1 h with h | h
      · exact logged_not_mem_drain _ h
      · rcases List.mem_map.1 h with ⟨j, _, hj⟩
        exact CkEvent.noConfusion hj
    · simp at h
  · have hp' : ({ p with checkpoint_pending := true } : CkPair) ∈
        turn_on_pending_bits_ck pairs := by
      unfold turn_on_pending_bits_ck
      exact List.mem_map.2 ⟨p, List.mem_filter.2 ⟨hp, by simp [hcf]⟩, rfl⟩
    have hwp : write_pair_for_checkpoint_thread_events
        { p with checkpoint_pending := true } =
        (if p.has_clone_callback then
          [CkEvent.cloned p.id, CkEvent.wrote_clone p.id]
        else [CkEvent.wrote_sync p.id]) := by
      unfold write_pair_for_checkpoint_thread_events
      rw [if_pos ⟨by simpa using hdirty, rfl⟩]
    by_cases hcl : p.has_clone_callback
    · refine Or.inr ?_
      refine List.mem_append.2 (Or.inl (List.mem_append.2 (Or.inl ?_)))
      refine wp_events_sub_drain hp' _ ?_
      rw [hwp, if_pos hcl]
      simp
    · refine Or.inl ?_
      refine List.mem_append.2 (Or.inl (List.mem_append.2 (Or.inl ?_)))
      refine wp_events_sub_drain hp' _ ?_
      rw [hwp, if_neg hcl]
      simp
  · intro j hj
    refine List.mem_append.2 (Or.inl (List.mem_append.2 (Or.inr ?_)))
    exact List.mem_map.2 ⟨j, hj, rfl⟩

/-- C1 witness: a concrete cycle with one dirty non-cloneable pair, one
dirty cloneable pair and one outstanding clone job. -/
theorem C1_write_before_end_checkpoint_witness :
    ∃ pre post,
      checkpoint_cycle_events
          [{ id := 1, dirty := true, checkpoint_pending := false,
             has_clone_callback := false, cf_for_checkpoint := true },
           { id := 2, dirty := true, checkpoint_pending := false,
             has_clone_callback := true, cf_for_checkpoint := true }] [7] =
        pre ++ CkEvent.logged_end_checkpoint :: post ∧
      CkEvent.logged_end_checkpoint ∉ pre ∧
      (CkEvent.wrote_sync 1 ∈ pre ∨ CkEvent.wrote_clone 1 ∈ pre) ∧
      (∀ j ∈ [7], CkEvent.wrote_clone j ∈ pre) :=
  C1_write_before_end_checkpoint _ [7]
    { id := 1, dirty := true, checkpoint_pending := false,
      has_clone_callback := false, cf_for_checkpoint := true }
    (by decide) rfl rfl

theorem PairTable.find_pair_modify_found {t : PairTable} {fileid : Nat}
    {key : Int} {h : Nat} {f : Pair → Pair} (hf : IdPreserving f) {p : Pair}
    (hfind : t.find_pair fileid key h = some p) :
    (t.modifyPair fileid key f).find_pair fileid key h = some (f p) := by
  have hpid := (PairTable.find_pair_mem hfind).2
  rw [PairTable.find_pair_modify t hf fileid key h, hfind]
  simp [guardUpd, hpid]

/-- C3 (amended): the clock counter of a pair is CLOCK_INITIAL_COUNT = 3
immediately after every insertion — via put and equally via the miss paths
of get_and_pin and prefetch, since pair_list::add_to_clock sets the count
unconditionally; it is incremented by each successful touch saturating at
15; and the evictor decrements it when it considers an unused pair with
count > 0. -/
theorem C3_clock_counter :
    (∀ (t : PairTable) (p : Pair), ((t.put p).2).count = CLOCK_INITIAL_COUNT) ∧
    (∀ (s : CacheState) (cf : Cachefile) (key : Int) (value : Nat)
        (fullhash : Nat) (attr : PairAttr) (hcb d : Bool),
      ((cachetable_insert_at s cf key value fullhash attr hcb d).2).count =
        CLOCK_INITIAL_COUNT) ∧
    (∀ p : Pair, p.count < CLOCK_SATURATION →
      (pair_touch p).count = p.count + 1) ∧
    (∀ p : Pair, CLOCK_SATURATION ≤ p.count →
      (pair_touch p).count = CLOCK_SATURATION) ∧
    (∀ (s : CacheState) (cf : Cachefile) (h : Nat) (p : Pair)
        (pe : PeEst) (pe_attr : PairAttr),
      s.list.find_pair cf.fileid p.key h = some p →
      p.value_users = 0 → p.disk_users = 0 → 0 < p.count →
      ∃ p', ((evictor_run_eviction_on_pair s cf p true pe pe_attr).1).list.find_pair
          cf.fileid p.key h = some p' ∧ p'.count = p.count - 1) := by
  refine ⟨?_, ?_, ?_, ?_, ?_⟩
  · intro t p
    rw [PairTable.put_snd]
  · intro s cf key value fullhash attr hcb d
    unfold cachetable_insert_at
    dsimp only
    rw [PairTable.put_snd]
  · intro p hlt
    simp [pair_touch, if_pos hlt]
  · intro p hge
    simp [pair_touch, if_neg (by omega : ¬ p.count < CLOCK_SATURATION)]
  · intro s cf h p pe pe_attr hfind husers hdisk hcount
    unfold evictor_run_eviction_on_pair
    rw [if_neg (by simp)]
    rw [if_neg (by omega)]
    rw [if_pos hcount]
    dsimp only
    have hdec : IdPreserving (fun q : Pair => { q with count := q.count - 1 }) :=
      fun q => ⟨rfl, rfl, rfl⟩
    have hlock : IdPreserving (fun q : Pair => { q with value_users := q.value_users + 1 }) :=
      fun q => ⟨rfl, rfl, rfl⟩
    have hunlock : IdPreserving (fun q : Pair => { q with value_users := q.value_users - 1 }) :=
      fun q => ⟨rfl, rfl, rfl⟩
    have hattr : IdPreserving (fun q : Pair => { q with attr := pe_attr }) :=
      fun q => ⟨rfl, rfl, rfl⟩
    have h1 := PairTable.find_pair_modify_found hdec hfind
    have h2 := PairTable.find_pair_modify_found hlock h1
    by_cases hcheap : pe.cost_is_cheap
    · rw [if_pos hcheap]
      unfold evictor_do_partial_eviction CacheState.unlockValue
      dsimp only
      exact ⟨_, PairTable.find_pair_modify_found hunlock
        (PairTable.find_pair_modify_found hattr h2), rfl⟩
    · rw [if_neg hcheap]
      by_cases hest : pe.bytes_freed_estimate > 0
      · rw [if_pos hest]
        unfold evictor_do_partial_eviction CacheState.unlockValue
        dsimp only
        exact ⟨_, PairTable.find_pair_modify_found hunlock
          (PairTable.find_pair_modify_found hattr h2), rfl⟩
      · rw [if_neg hest]
        unfold CacheState.unlockValue
        dsimp only
        exact ⟨_, PairTable.find_pair_modify_found hunlock h2, rfl⟩

/-- C3 counterexample: the claim says a pair inserted by the miss path of
get_and_pin has clock count 0; in the code pair_list::add_to_clock sets
the count to CLOCK_INITIAL_COUNT = 3 for every insertion, so a miss-path
insertion into an empty cachetable leaves the pair with count 3, not 0. -/
theorem C3_counterexample :
    ((toku_cachetable_get_and_pin (toku_create_cachetable 1000) ⟨1, 7⟩ 5 0
        { value := 9, dirty := false, attr := zero_attr } (fun _ => false)
        zero_attr false false).map
      (fun o => (o.state.list.find_pair 1 5 0).map Pair.count)) =
        some (some 3) ∧
    ((toku_cachetable_get_and_pin (toku_create_cachetable 1000) ⟨1, 7⟩ 5 0
        { value := 9, dirty := false, attr := zero_attr } (fun _ => false)
        zero_attr false false).map
      (fun o => (o.state.list.find_pair 1 5 0).map Pair.count)) ≠
        some (some 0) := by
  constructor <;> decide

/-- C3 witness: the touch and evictor-decrement clauses applied at a
concrete pair with count 2 and at a concrete single-pair cachetable. -/
theorem C3_clock_counter_witness :
    (pair_touch { pair_init 1 5 42 zero_attr true 0 false with count := 2 }).count = 3 ∧
    (∃ p', ((evictor_run_eviction_on_pair c4okState ⟨1, 7⟩ c4okPair true
        { bytes_freed_estimate := 0, cost_is_cheap := true }
        zero_attr).1).list.find_pair 1 5 0 = some p' ∧ p'.count = 2) := by
  constructor
  · exact C3_clock_counter.2.2.1 _ (by decide)
  · have h := C3_clock_counter.2.2.2.2 c4okState ⟨1, 7⟩ 0 c4okPair
      { bytes_freed_estimate := 0, cost_is_cheap := true } zero_attr
      (by decide) (by decide) (by decide) (by decide)
    rcases h with ⟨p', hfind, hcount⟩
    exact ⟨p', hfind, hcount⟩

theorem foldBest_isSome :
    ∀ (ex : List Pair) (bs : Int) (p0 : Pair),
      (foldBest ex bs (some p0)).isSome := by
  intro ex
  induction ex with
  | nil => intro bs p0; rfl
  | cons p rest ih =>
    intro bs p0
    unfold foldBest
    split
    · exact ih _ p
    · exact ih _ p0

theorem foldBest_none :
    ∀ (ex : List Pair) (bs : Int), foldBest ex bs none = none →
      ∀ q ∈ ex, cleaner_thread_rate_pair q ≤ bs := by
  intro ex
  induction ex with
  | nil => intro bs _ q hq; cases hq
  | cons p rest ih =>
    intro bs hres q hq
    unfold foldBest at hres
    by_cases hp : cleaner_thread_rate_pair p > bs
    · rw [if_pos hp] at hres
      have := foldBest_isSome rest (cleaner_thread_rate_pair p) p
      rw [hres] at this
      cases this
    · rw [if_neg hp] at hres
      rcases List.mem_cons.1 hq with rfl | hq'
      · omega
      · exact ih bs hres q hq'

theorem foldBest_some_spec :
    ∀ (ex : List Pair) (bs : Int) (best : Option Pair) (b : Pair),
      foldBest ex bs best = some b →
      (best = some b ∧ ∀ q ∈ ex, cleaner_thread_rate_pair q ≤ bs) ∨
      (∃ l1 l2, ex = l1 ++ b :: l2 ∧ cleaner_thread_rate_pair b > bs ∧
        (∀ q ∈ l1, cleaner_thread_rate_pair q ≤ bs ∨
          cleaner_thread_rate_pair q < cleaner_thread_rate_pair b) ∧
        (∀ q ∈ l2, cleaner_thread_rate_pair q ≤ cleaner_thread_rate_pair b)) := by
  intro ex
  induction ex with
  | nil =>
    intro bs best b hres
    exact Or.inl ⟨hres, fun q hq => absurd hq (by simp)⟩
  | cons p rest ih =>
    intro bs best b hres
    unfold foldBest at hres
    by_cases hp : cleaner_thread_rate_pair p > bs
    · rw [if_pos hp] at hres
      rcases ih _ _ _ hres with ⟨heq, hall⟩ | ⟨l1, l2, hsplit, hgt, hl1, hl2⟩
      · injection heq with heq
        subst heq
        refine Or.inr ⟨[], rest, by simp, hp, by simp, hall⟩
      · refine Or.inr ⟨p :: l1, l2, by rw [hsplit]; rfl, by omega, ?_, hl2⟩
        intro q hq
        rcases List.mem_cons.1 hq with rfl | hq'
        · exact Or.inr (by omega)
        · rcases hl1 q hq' with h | h
          · exact Or.inr (by omega)
          · exact Or.inr h
    · rw [if_neg hp] at hres
      rcases ih _ _ _ hres with ⟨heq, hall⟩ | ⟨l1, l2, hsplit, hgt, hl1, hl2⟩
      · refine Or.inl ⟨heq, ?_⟩
        intro q hq
        rcases List.mem_cons.1 hq with rfl | hq'
        · omega
        · exact hall q hq'
      · refine Or.inr ⟨p :: l1, l2, by rw [hsplit]; rfl, hgt, ?_, hl2⟩
        intro q hq
        rcases List.mem_cons.1 hq with rfl | hq'
        · exact Or.inl (by omega)
        · exact hl1 q hq'

theorem cleaner_select_eq_foldBest :
    ∀ (l : List Pair) (n : Nat) (bs : Int) (best : Option Pair),
      n < CLEANER_N_TO_CHECK →
      cleaner_select l n bs best =
        foldBest ((l.filter (fun p => p.value_users == 0)).take
          (CLEANER_N_TO_CHECK - n)) bs best := by
  intro l
  induction l with
  | nil => intro n bs best _; simp [cleaner_select, foldBest]
  | cons p rest ih =>
    intro n bs best hn
    unfold cleaner_select
    by_cases hu : p.value_users > 0
    · rw [if_pos hu]
      have hfu : (p.value_users == 0) = false := by
        simp only [beq_eq_false_iff_ne, ne_eq]
        omega
      rw [List.filter_cons, hfu]
      simp only [Bool.false_eq_true, if_neg]
      exact ih n bs best hn
    · rw [if_neg hu]
      have hfu : (p.value_users == 0) = true := by
        simp only [beq_iff_eq]
        omega
      rw [List.filter_cons, hfu]
      simp only [if_pos]
      have htake : (CLEANER_N_TO_CHECK - n) = (CLEANER_N_TO_CHECK - (n + 1)) + 1 := by
        unfold CLEANER_N_TO_CHECK at hn ⊢
        omega
      rw [htake, List.take_succ_cons]
      by_cases hsc : cleaner_thread_rate_pair p > bs
      · simp only [foldBest, if_pos hsc]
        by_cases hn1 : n + 1 < CLEANER_N_TO_CHECK
        · rw [if_pos hn1]
          exact ih (n + 1) _ _ hn1
        · rw [if_neg hn1]
          have h0 : CLEANER_N_TO_CHECK - (n + 1) = 0 := by omega
          rw [h0, List.take_zero]
          rfl
      · simp only [foldBest, if_neg hsc]
        by_cases hn1 : n + 1 < CLEANER_N_TO_CHECK
        · rw [if_pos hn1]
          exact ih (n + 1) _ _ hn1
        · rw [if_neg hn1]
          have h0 : CLEANER_N_TO_CHECK - (n + 1) = 0 := by omega
          rw [h0, List.take_zero]
          rfl

theorem write_locked_no_cleaner_cb (cf : Cachefile) (p : Pair) (pend : Bool) :
    (write_locked_pair_for_checkpoint_p cf p pend).2.countP isCleanerCb = 0 := by
  unfold write_locked_pair_for_checkpoint_p
  split
  · split <;> rfl
  · rfl

/-- C9: a cleaner probe starts at the cleaner head and examines up to 8
pairs, skipping any pair whose value_nb_mutex has users; among the
examined pairs it selects the one with the greatest cache_pressure_size
(ties favouring the first seen), a pair with pressure 0 being ineligible;
at most one pair per probe gets its cleaner callback; and on the clock
list with pressures [0, 5, 0, 10, 0, 3, 0, 0], none locked, one run with
the default single iteration invokes the cleaner callback exactly once,
on the pair with pressure 10. -/
theorem C9_cleaner :
    (∀ (l : List Pair) (b : Pair), cleaner_select l 0 0 none = some b →
      b ∈ cleaner_examined l ∧ cleaner_thread_rate_pair b > 0 ∧
      (∀ q ∈ cleaner_examined l,
        cleaner_thread_rate_pair q ≤ cleaner_thread_rate_pair b) ∧
      ∃ l1 l2, cleaner_examined l = l1 ++ b :: l2 ∧
        ∀ q ∈ l1, cleaner_thread_rate_pair q < cleaner_thread_rate_pair b) ∧
    (∀ l : List Pair, cleaner_select l 0 0 none = none →
      ∀ q ∈ cleaner_examined l, cleaner_thread_rate_pair q ≤ 0) ∧
    (∀ (clock : List Pair) (closing : Nat → Bool) (cfOf : Nat → Cachefile),
      ((run_cleaner_probe clock closing cfOf).2.1).countP isCleanerCb ≤ 1) ∧
    ((run_cleaner 1 c9clock (fun _ => false) (fun i => ⟨i, 7⟩)).2 =
      [CTEvent.cleaner_cb 1 3]) := by
  refine ⟨?_, ?_, ?_, ?_⟩
  · intro l b hsel
    rw [cleaner_select_eq_foldBest l 0 0 none (by decide)] at hsel
    rcases foldBest_some_spec _ _ _ _ hsel with ⟨heq, _⟩ | ⟨l1, l2, hsplit, hgt, hl1, hl2⟩
    · exact absurd heq (by simp)
    · have hex : cleaner_examined l = l1 ++ b :: l2 := by
        unfold cleaner_examined
        simpa using hsplit
      refine ⟨by rw [hex]; exact List.mem_append.2 (Or.inr (List.mem_cons_self _ _)),
        hgt, ?_, l1, l2, hex, ?_⟩
      · intro q hq
        rw [hex] at hq
        rcases List.mem_append.1 hq with hq | hq
        · rcases hl1 q hq with h | h <;> omega
        · rcases List.mem_cons.1 hq with rfl | hq
          · omega
          · exact hl2 q hq
      · intro q hq
        rcases hl1 q hq with h | h <;> omega
  · intro l hsel
    rw [cleaner_select_eq_foldBest l 0 0 none (by decide)] at hsel
    intro q hq
    exact foldBest_none _ _ hsel q (by simpa [cleaner_examined] using hq)
  · intro clock closing cfOf
    unfold run_cleaner_probe
    rcases cleaner_select clock 0 0 none with _ | best
    · simp
    · dsimp only
      by_cases hcl : closing best.fileid
      · rw [if_pos hcl]; simp
      · rw [if_neg hcl]
        have hwr := write_locked_no_cleaner_cb (cfOf best.fileid)
          { best with checkpoint_pending := false } best.checkpoint_pending
        by_cases hrate : cleaner_thread_rate_pair
            (write_locked_pair_for_checkpoint_p (cfOf best.fileid)
              { best with checkpoint_pending := false } best.checkpoint_pending).1 > 0
        · rw [if_pos hrate]
          dsimp only
          rw [List.countP_append]
          by_cases hpend : best.checkpoint_pending
          · rw [if_pos hpend, hwr]
            simp [isCleanerCb]
          · rw [if_neg hpend]
            simp [isCleanerCb]
        · rw [if_neg hrate]
          dsimp only
          by_cases hpend : best.checkpoint_pending
          · rw [if_pos hpend, hwr]
            exact Nat.zero_le 1
          · rw [if_neg hpend]
            simp
  · decide

/-- C9 witness: the selection clause applied to the concrete S5 clock
list: the selected pair is the one with pressure 10, every examined pair
rates no higher, and all pairs seen before it rate strictly lower. -/
theorem C9_cleaner_witness :
    (c9pair 3 10) ∈ cleaner_examined c9clock ∧
    cleaner_thread_rate_pair (c9pair 3 10) > 0 ∧
    (∀ q ∈ cleaner_examined c9clock,
      cleaner_thread_rate_pair q ≤ cleaner_thread_rate_pair (c9pair 3 10)) ∧
    ∃ l1 l2, cleaner_examined c9clock = l1 ++ (c9pair 3 10) :: l2 ∧
      ∀ q ∈ l1, cleaner_thread_rate_pair q < cleaner_thread_rate_pair (c9pair 3 10) :=
  C9_cleaner.1 c9clock (c9pair 3 10) (by decide)

theorem PairTable.rehash_n (t : PairTable) (n : Nat) :
    (t.rehash n).m_n_in_table = t.m_n_in_table := rfl

theorem PairTable.put_fst_n (t : PairTable) (p : Pair) :
    (t.put p).1.m_n_in_table = t.m_n_in_table + 1 := by
  rw [PairTable.put_fst_eq]
  split
  · rw [PairTable.rehash_n, PairTable.putMid_n]
  · rw [PairTable.putMid_n]

theorem PairTable.modify_n (t : PairTable) (fileid : Nat) (key : Int)
    (f : Pair → Pair) : (t.modifyPair fileid key f).m_n_in_table =
      t.m_n_in_table := rfl

theorem put_internal_success (s : CacheState) (cf : Cachefile) (key : Int)
    (value : Nat) (attr : PairAttr) (hcb : Bool) (wf : s.list.WF)
    (habs : ∀ q ∈ s.list.allPairs, ¬(q.fileid = cf.fileid ∧ q.key = key)) :
    ∃ s', cachetable_put_internal s cf key
        (toku_cachetable_hash cf.fileid key) value attr hcb =
        (0, s', [CTEvent.put_cb value]) ∧
      s'.list.WF ∧
      s'.list.find_pair cf.fileid key (toku_cachetable_hash cf.fileid key) =
        some (putResultPair cf.fileid key value attr
          (toku_cachetable_hash cf.fileid key) hcb) ∧
      s'.list.m_n_in_table = s.list.m_n_in_table + 1 ∧
      s'.cachetable_puts = s.cachetable_puts + 1 := by
  have hfind : s.list.find_pair cf.fileid key
      (toku_cachetable_hash cf.fileid key) = none := by
    unfold PairTable.find_pair
    rw [List.find?_eq_none]
    intro x hx hpred
    rcases Pair.sameId_iff.1 hpred with ⟨h1, h2⟩
    exact habs x (PairTable.mem_allPairs_of_mem_bucketAt hx) ⟨h1, h2⟩
  unfold cachetable_put_internal
  rw [hfind]
  dsimp only
  unfold cachetable_insert_at CacheState.lockValue
  dsimp only
  set p0 := pair_init cf.fileid key value attr true
    (toku_cachetable_hash cf.fileid key) hcb with hp0
  have hwfput : (s.list.put p0).1.WF := PairTable.put_wf wf habs rfl
  have hp1mem : ({ p0 with count := CLOCK_INITIAL_COUNT }) ∈
      (s.list.put p0).1.allPairs :=
    (PairTable.mem_put_allPairs wf.sizePow).2 (Or.inl rfl)
  have hfind1 : (s.list.put p0).1.find_pair cf.fileid key
      (toku_cachetable_hash cf.fileid key) =
      some { p0 with count := CLOCK_INITIAL_COUNT } :=
    hwfput.find_pair_of_mem hp1mem
  have hlockpres : IdPreserving
      (fun q : Pair => { q with value_users := q.value_users + 1 }) :=
    fun q => ⟨rfl, rfl, rfl⟩
  refine ⟨_, rfl, ?_, ?_, ?_, rfl⟩
  · exact PairTable.modify_wf hwfput hlockpres
  · exact PairTable.find_pair_modify_found hlockpres hfind1
  · rw [PairTable.modify_n]
    simp only [CacheState.add_pair_attr, CacheState.add_to_size_current]
    rw [PairTable.put_fst_n]

/-- C5: a put whose (file, key) is already present returns -1 and changes
nothing: no insertion, no value lock taken, no put callback; a put of an
absent key returns 0 having inserted exactly one new DIRTY pair, pinned
(its value_nb_mutex held by the caller), with the put callback invoked
exactly once. -/
theorem C5_put_internal (s : CacheState) (cf : Cachefile) (key : Int)
    (value : Nat) (attr : PairAttr) (hcb : Bool) (wf : s.list.WF) :
    (∀ p, s.list.find_pair cf.fileid key
        (toku_cachetable_hash cf.fileid key) = some p →
      cachetable_put_internal s cf key (toku_cachetable_hash cf.fileid key)
        value attr hcb = (-1, s, [])) ∧
    ((∀ q ∈ s.list.allPairs, ¬(q.fileid = cf.fileid ∧ q.key = key)) →
      ∃ s', cachetable_put_internal s cf key
          (toku_cachetable_hash cf.fileid key) value attr hcb =
          (0, s', [CTEvent.put_cb value]) ∧
        s'.list.find_pair cf.fileid key (toku_cachetable_hash cf.fileid key) =
          some (putResultPair cf.fileid key value attr
            (toku_cachetable_hash cf.fileid key) hcb) ∧
        (putResultPair cf.fileid key value attr
          (toku_cachetable_hash cf.fileid key) hcb).dirty = true ∧
        (putResultPair cf.fileid key value attr
          (toku_cachetable_hash cf.fileid key) hcb).value_users = 1 ∧
        (putResultPair cf.fileid key value attr
          (toku_cachetable_hash cf.fileid key) hcb).value_data = value ∧
        s'.list.m_n_in_table = s.list.m_n_in_table + 1 ∧
        s'.cachetable_puts = s.cachetable_puts + 1) := by
  constructor
  · intro p hp
    unfold cachetable_put_internal
    rw [hp]
  · intro habs
    rcases put_internal_success s cf key value attr hcb wf habs with
      ⟨s', heq, _, hfind, hn, hputs⟩
    exact ⟨s', heq, hfind, rfl, rfl, rfl, hn, hputs⟩

/-- C5 witness: on an empty cachetable the put succeeds with the pinned
dirty pair present afterwards; repeating the same put then returns -1 and
leaves the state unchanged. -/
theorem C5_put_internal_witness :
    (∃ s', cachetable_put_internal (toku_create_cachetable 4096) ⟨1, 7⟩ 5
        (toku_cachetable_hash 1 5) 42 zero_attr false =
        (0, s', [CTEvent.put_cb 42]) ∧
      s'.list.find_pair 1 5 (toku_cachetable_hash 1 5) =
        some (putResultPair 1 5 42 zero_attr (toku_cachetable_hash 1 5) false) ∧
      (putResultPair 1 5 42 zero_attr (toku_cachetable_hash 1 5) false).dirty = true ∧
      (putResultPair 1 5 42 zero_attr (toku_cachetable_hash 1 5) false).value_users = 1 ∧
      (putResultPair 1 5 42 zero_attr (toku_cachetable_hash 1 5) false).value_data = 42 ∧
      s'.list.m_n_in_table = 1 ∧
      s'.cachetable_puts = 1) := by
  have h := (C5_put_internal (toku_create_cachetable 4096) ⟨1, 7⟩ 5 42 zero_attr
    false (by exact PairTable.init_wf)).2
    (by intro q hq
        exact absurd hq (by
          have : (toku_create_cachetable 4096).list.allPairs = [] := by decide
          simp [this]))
  rcases h with ⟨s', heq, hfind, hd, hu, hv, hn, hputs⟩
  exact ⟨s', heq, hfind, hd, hu, hv, by simpa using hn, by simpa using hputs⟩

theorem try_pin_pair_hit (s : CacheState) (cf : Cachefile) (key : Int)
    (p : Pair) (mm : Bool) (pf_req : Nat → Bool) (pf_attr : PairAttr)
    (husers : p.value_users = 0) (hpend : p.checkpoint_pending = false)
    (hpf : pf_req p.value_data = false) :
    ∃ st, try_pin_pair s cf key p mm pf_req pf_attr =
      some { state := st, value := p.value_data, events := [] } := by
  unfold try_pin_pair
  rw [if_neg (by omega)]
  have hwr : write_locked_pair_for_checkpoint_p cf p p.checkpoint_pending =
      (p, []) := by
    unfold write_locked_pair_for_checkpoint_p
    rw [hpend]
    rw [if_neg (by simp)]
  dsimp only
  rw [hwr]
  dsimp only
  rw [if_pos (by simp [hpf])]
  simp only [ite_self]
  exact ⟨_, rfl⟩

theorem get_and_pin_hit (s : CacheState) (cf : Cachefile) (key : Int)
    (H : Nat) (fetch : FetchResult) (pf_req : Nat → Bool) (pf_attr : PairAttr)
    (mm hcb : Bool) (p : Pair)
    (hfind : s.list.find_pair cf.fileid key H = some p)
    (husers : p.value_users = 0) (hpend : p.checkpoint_pending = false)
    (hpf : pf_req p.value_data = false) :
    ∃ st, toku_cachetable_get_and_pin s cf key H fetch pf_req pf_attr mm hcb =
      some { state := st, value := p.value_data, events := [] } := by
  unfold toku_cachetable_get_and_pin
  rw [hfind]
  exact try_pin_pair_hit s cf key p mm pf_req pf_attr husers hpend hpf

theorem get_and_pin_miss (s : CacheState) (cf : Cachefile) (key : Int)
    (H : Nat) (fetch : FetchResult) (pf_req : Nat → Bool) (pf_attr : PairAttr)
    (mm hcb : Bool)
    (hfind : s.list.find_pair cf.fileid key H = none)
    (hns : ¬ s.should_client_thread_sleep) :
    ∃ st, toku_cachetable_get_and_pin s cf key H fetch pf_req pf_attr mm hcb =
      some { state := st, value := fetch.value,
             events := [CTEvent.fetch_cb cf.fileid key] } := by
  unfold toku_cachetable_get_and_pin
  rw [hfind]
  dsimp only
  rw [if_neg hns]
  exact ⟨_, rfl⟩

theorem PairTable.modify_congr (t : PairTable) (fileid : Nat) (key : Int)
    {f g : Pair → Pair} (h : ∀ q, f q = g q) :
    t.modifyPair fileid key f = t.modifyPair fileid key g := by
  unfold PairTable.modifyPair
  have : f = g := funext h
  rw [this]

/-- C6: a successful put(k, v) followed (after unpinning) by a
get_and_pin of the same key on the same file, with no eviction, removal or
flush of the pair in between, returns exactly the value handle v that was
put, without invoking the fetch callback (the get emits no upcalls at
all). -/
theorem C6_put_then_get (s : CacheState) (cf : Cachefile) (key : Int)
    (value : Nat) (attr : PairAttr) (hcb : Bool) (ud : Bool)
    (uattr : PairAttr) (fetch : FetchResult) (pf_req : Nat → Bool)
    (pf_attr : PairAttr) (mm : Bool) (wf : s.list.WF)
    (habs : ∀ q ∈ s.list.allPairs, ¬(q.fileid = cf.fileid ∧ q.key = key))
    (hpf : pf_req value = false) :
    ∃ s1 s2 out,
      cachetable_put_internal s cf key (toku_cachetable_hash cf.fileid key)
        value attr hcb = (0, s1, [CTEvent.put_cb value]) ∧
      toku_cachetable_unpin s1 cf key (toku_cachetable_hash cf.fileid key)
        ud uattr = some s2 ∧
      toku_cachetable_get_and_pin s2 cf key (toku_cachetable_hash cf.fileid key)
        fetch pf_req pf_attr mm hcb = some out ∧
      out.value = value ∧
      out.events = [] := by
  rcases put_internal_success s cf key value attr hcb wf habs with
    ⟨s1, heq, hwf1, hfind1, _, _⟩
  set H := toku_cachetable_hash cf.fileid key with hH
  set P := putResultPair cf.fileid key value attr H hcb with hP
  set updF := (fun q : Pair =>
      { q with dirty := q.dirty || ud,
               attr := if uattr.is_valid then uattr else q.attr,
               value_users := q.value_users - 1 }) with hupdF
  have hupd : IdPreserving updF := fun q => ⟨rfl, rfl, rfl⟩
  have hfind2 := PairTable.find_pair_modify_found hupd hfind1
  have hunpin : ∃ s2, toku_cachetable_unpin s1 cf key H ud uattr = some s2 ∧
      s2.list = s1.list.modifyPair cf.fileid key updF := by
    unfold toku_cachetable_unpin cachetable_unpin_internal
    rw [hfind1]
    dsimp only
    rw [if_neg (by simp [hP, putResultPair, pair_init])]
    refine ⟨_, rfl, ?_⟩
    split
    · rename_i hv
      simp only [CacheState.change_pair_attr, CacheState.add_pair_attr,
        CacheState.remove_pair_attr, CacheState.add_to_size_current,
        CacheState.remove_from_size_current]
      refine PairTable.modify_congr _ _ _ ?_
      intro q
      rw [hupdF]
      simp [hv]
    · rename_i hv
      show s1.list.modifyPair cf.fileid key _ = s1.list.modifyPair cf.fileid key updF
      refine PairTable.modify_congr _ _ _ ?_
      intro q
      rw [hupdF]
      simp [hv]
  rcases hunpin with ⟨s2, hunpin, hs2list⟩
  have husers2 : (updF P).value_users = 0 := rfl
  have hpend2 : (updF P).checkpoint_pending = false := rfl
  have hval2 : (updF P).value_data = value := rfl
  rcases get_and_pin_hit s2 cf key H fetch pf_req pf_attr mm hcb (updF P)
    (by rw [hs2list]; exact hfind2) husers2 hpend2
    (by rw [hval2]; exact hpf) with ⟨st, hget⟩
  exact ⟨s1, s2, { state := st, value := (updF P).value_data, events := [] },
    heq, hunpin, hget, hval2, rfl⟩

/-- C6 witness: the round trip on an initially empty cachetable returns
the just-put value 42 with no upcalls from the get. -/
theorem C6_put_then_get_witness :
    ∃ s1 s2 out,
      cachetable_put_internal (toku_create_cachetable 4096) ⟨1, 7⟩ 5
        (toku_cachetable_hash 1 5) 42 zero_attr false =
        (0, s1, [CTEvent.put_cb 42]) ∧
      toku_cachetable_unpin s1 ⟨1, 7⟩ 5 (toku_cachetable_hash 1 5) false
        zero_attr = some s2 ∧
      toku_cachetable_get_and_pin s2 ⟨1, 7⟩ 5 (toku_cachetable_hash 1 5)
        { value := 9, dirty := false, attr := zero_attr } (fun _ => false)
        zero_attr true false = some out ∧
      out.value = 42 ∧
      out.events = [] :=
  C6_put_then_get (toku_create_cachetable 4096) ⟨1, 7⟩ 5 42 zero_attr false
    false zero_attr { value := 9, dirty := false, attr := zero_attr }
    (fun _ => false) zero_attr true PairTable.init_wf (by decide) rfl

/-- C7: after toku_cachetable_unpin_and_remove returns on a pinned pair,
a hash-table lookup of that (cachefile, key) is absent — under any probe
hash — and a subsequent get_and_pin of the key misses: it invokes the
fetch callback and returns the freshly fetched value rather than the
removed pair's old value. -/
theorem C7_unpin_and_remove (s : CacheState) (cf : Cachefile) (key : Int)
    (H : Nat) (fetch : FetchResult) (pf_req : Nat → Bool) (pf_attr : PairAttr)
    (mm hcb rkp : Bool) (p : Pair) (wf : s.list.WF)
    (hfind : s.list.find_pair cf.fileid key H = some p)
    (hpin : p.value_users ≠ 0) (hdisk : p.disk_users = 0) :
    ∃ s' evs,
      toku_cachetable_unpin_and_remove s cf key H rkp = some (s', evs) ∧
      (∀ h', s'.list.find_pair cf.fileid key h' = none) ∧
      (¬ s'.should_client_thread_sleep →
        ∃ out, toku_cachetable_get_and_pin s' cf key H fetch pf_req pf_attr
            mm hcb = some out ∧
          out.value = fetch.value ∧
          CTEvent.fetch_cb cf.fileid key ∈ out.events) := by
  have hpmem := PairTable.find_pair_mem hfind
  rcases Pair.sameId_iff.1 hpmem.2 with ⟨hpfid, hpkey⟩
  have hupd : IdPreserving unpin_remove_upd := fun q => ⟨rfl, rfl, rfl⟩
  have hwf1 : (s.list.modifyPair cf.fileid key unpin_remove_upd).WF :=
    PairTable.modify_wf wf hupd
  have hp2mem : unpin_remove_upd p ∈
      (s.list.modifyPair cf.fileid key unpin_remove_upd).allPairs := by
    rw [PairTable.allPairs_modify]
    refine List.mem_map.2 ⟨p, hpmem.1, ?_⟩
    unfold guardUpd
    rw [if_pos hpmem.2]
  have hfindnone : ∀ h',
      ((s.list.modifyPair cf.fileid key unpin_remove_upd).evict
        (unpin_remove_upd p)).find_pair cf.fileid key h' = none := by
    intro h'
    have := PairTable.find_pair_evict_none hwf1 hp2mem h'
    have hfid2 : (unpin_remove_upd p).fileid = cf.fileid := hpfid
    have hkey2 : (unpin_remove_upd p).key = key := hpkey
    rw [hfid2, hkey2] at this
    exact this
  unfold toku_cachetable_unpin_and_remove
  rw [hfind]
  dsimp only
  rw [if_neg (by omega)]
  refine ⟨_, _, rfl, ?_, ?_⟩
  · intro h'
    exact hfindnone h'
  · intro hns
    rcases get_and_pin_miss _ cf key H fetch pf_req pf_attr mm hcb
      (hfindnone H) hns with ⟨st, hget⟩
    exact ⟨_, hget, rfl, List.mem_singleton_self _⟩

/-- C7 witness: put a pair (it comes back pinned), remove it with
unpin_and_remove, and the lookup is absent under every probe hash. -/
theorem C7_unpin_and_remove_witness :
    ∃ s1 s' evs,
      cachetable_put_internal (toku_create_cachetable 4096) ⟨1, 7⟩ 5
        (toku_cachetable_hash 1 5) 42 zero_attr false =
        (0, s1, [CTEvent.put_cb 42]) ∧
      toku_cachetable_unpin_and_remove s1 ⟨1, 7⟩ 5
        (toku_cachetable_hash 1 5) true = some (s', evs) ∧
      (∀ h', s'.list.find_pair 1 5 h' = none) := by
  rcases put_internal_success (toku_create_cachetable 4096) ⟨1, 7⟩ 5 42
      zero_attr false PairTable.init_wf (by decide) with
    ⟨s1, heq, hwf1, hfind1, _, _⟩
  rcases C7_unpin_and_remove s1 ⟨1, 7⟩ 5 (toku_cachetable_hash 1 5)
      { value := 9, dirty := false, attr := zero_attr } (fun _ => false)
      zero_attr true false true _ hwf1 hfind1
      (by simp [putResultPair, pair_init]) rfl with
    ⟨s', evs, hrem, hnone, _⟩
  exact ⟨s1, s', evs, heq, hrem, hnone⟩
